import Mathlib

/-!
Verification development for the `tot` codec (a serde-style codec for the
Tot configuration language). The Rust sources are embedded shallowly:

* `parser.rs` — nom-based recognizers over `&str`, modelled at the character
  level as functions `List Char → Option (List Char × α)` (`none` is a nom
  failure, `some (rem, v)` success with remaining input `rem`);
* `parser/string.rs` — the escape-decoding string parser;
* `de.rs` — the pull deserializer, modelled as explicit state passing over
  `DeState` (the borrowed input plus the depth counter); an erroring call
  still returns the mutated state, matching `&mut self` semantics;
* `ser.rs` — the serializer with the default (pretty) formatter, modelled as
  explicit state passing over `SerState` (writing into a `Vec<u8>` buffer
  cannot fail, so the writer operations are total).

Machine integers are modelled as `ℤ`/`ℕ` with explicit bounds; `f64` values
produced by nom's `double` are modelled by `TotFloat` (exact rationals for
finite values, plus the `inf`/`nan` exceptional forms).
-/

namespace Tot

/-- Result type of a nom parser over `&str`, at the character level. -/
def P (α : Type) : Type := List Char → Option (List Char × α)

/-- `pat` is a prefix of the second list. -/
def startsWith : List Char → List Char → Bool
  | [], _ => true
  | _ :: _, [] => false
  | c :: cs, d :: ds => c == d && startsWith cs ds

/-- Case-insensitive prefix test (ASCII lowering, as nom's `tag_no_case`). -/
def startsWithNoCase : List Char → List Char → Bool
  | [], _ => true
  | _ :: _, [] => false
  | c :: cs, d :: ds => c.toLower == d.toLower && startsWithNoCase cs ds

/-- nom `tag`. -/
def tag (t : List Char) : P (List Char) := fun i =>
  if startsWith t i then some (i.drop t.length, t) else none

/-- nom `tag_no_case`. -/
def tagNoCase (t : List Char) : P (List Char) := fun i =>
  if startsWithNoCase t i then some (i.drop t.length, i.take t.length) else none

/-- nom `take_while1 p`: longest nonempty prefix satisfying `p`. -/
def takeWhile1 (p : Char → Bool) : P (List Char) := fun i =>
  let pre := i.takeWhile p
  if pre.isEmpty then none else some (i.drop pre.length, pre)

/-- nom `take_till1 p`: longest nonempty prefix whose characters do not satisfy `p`. -/
def takeTill1 (p : Char → Bool) : P (List Char) := fun i =>
  let pre := i.takeWhile (fun c => !(p c))
  if pre.isEmpty then none else some (i.drop pre.length, pre)

/-- nom `alt` of two parsers. -/
def orElseP (p q : P α) : P α := fun i =>
  match p i with
  | some r => some r
  | none => q i

/-- nom `many0`, with fuel. Mirrors nom's infinite-loop guard: a successful
inner parse that consumes nothing is an error. The fuel `i.length + 1`
supplied by `many0` is enough: every iteration strictly consumes input. -/
def many0F (p : P α) : ℕ → P (List α)
  | 0, _ => none
  | fuel + 1, i =>
    match p i with
    | none => some (i, [])
    | some (rem, a) =>
      if rem.length < i.length then
        match many0F p fuel rem with
        | some (rem2, vs) => some (rem2, a :: vs)
        | none => none
      else none

/-- nom `many0`. -/
def many0 (p : P α) : P (List α) := fun i => many0F p (i.length + 1) i

/-- Index of the first occurrence of `pat` as a contiguous sublist. -/
def findSub (pat : List Char) : List Char → Option ℕ
  | [] => if startsWith pat [] then some 0 else none
  | c :: rest =>
    if startsWith pat (c :: rest) then some 0
    else (findSub pat rest).map (fun n => n + 1)

/-- The value of an `f64` produced by nom's `double`. Finite values are kept
as the literal's exact rational (the rounding of the decimal literal to the
nearest IEEE-754 double is not modelled); the exceptional forms recognized by
nom's `recognize_float_or_exceptions` are explicit constructors. -/
inductive TotFloat where
  | finite (q : ℚ)
  | inf
  | nan
  deriving DecidableEq, Repr

/-- Numeric value of a digit run. -/
def digitsToNat (ds : List Char) : ℕ :=
  ds.foldl (fun acc c => acc * 10 + (c.toNat - '0'.toNat)) 0

/-- `parser::token`: `take_till1(|c| c.is_whitespace())`. Rust's
`char::is_whitespace` is Unicode-aware; `Char.isWhitespace` covers the ASCII
whitespace, which is all the inputs considered here contain. -/
def token : P (List Char) := takeTill1 (fun c => c.isWhitespace)

/-- `parser::unit`: the literal `null`. -/
def unit : P Unit := fun i => (tag "null".data i).map (fun r => (r.1, ()))

/-- `parser::boolean`: `true` or `false`, case-sensitive. -/
def boolean : P Bool := fun i =>
  match tag "true".data i with
  | some (r, _) => some (r, true)
  | none =>
    match tag "false".data i with
    | some (r, _) => some (r, false)
    | none => none

/-- nom `digit1`. -/
def digit1 : P (List Char) := takeWhile1 (fun c => c.isDigit)

def isSignChar (c : Char) : Bool := c == '+' || c == '-'

/-- The optional exponent part of nom's `recognize_float`
(`opt((e|E, opt(sign), digit1))`), applied to the mantissa value `m`.
If `digit1` fails after the `e`, the whole optional group is skipped
without consuming (so the `e` is left in the remainder). -/
def expPart (i : List Char) (m : ℚ) : Option (List Char × TotFloat) :=
  match i with
  | c :: rest =>
    if c == 'e' || c == 'E' then
      let sgnStep : List Char × ℤ :=
        match rest with
        | d :: rest2 => if isSignChar d then (rest2, if d == '-' then -1 else 1) else (rest, 1)
        | [] => (rest, 1)
      match digit1 sgnStep.1 with
      | some (r2, es) =>
        some (r2, TotFloat.finite (m * (10 : ℚ) ^ (sgnStep.2 * (digitsToNat es : ℤ))))
      | none => some (c :: rest, TotFloat.finite m)
    else some (c :: rest, TotFloat.finite m)
  | [] => some ([], TotFloat.finite m)

/-- Mantissa value: integer digits `ds` and fractional digits `fs`. -/
def mantissa (ds fs : List Char) : ℚ :=
  (digitsToNat ds : ℚ) + (digitsToNat fs : ℚ) / (10 : ℚ) ^ fs.length

/-- nom `recognize_float`: `opt(sign)`, then either `digit1 (('.') (digit0))?`
or `'.' digit1`, then an optional exponent; value computed exactly. -/
def recogFloat : P TotFloat := fun i =>
  let sgnStep : List Char × ℚ :=
    match i with
    | c :: rest => if isSignChar c then (rest, if c == '-' then -1 else 1) else (i, 1)
    | [] => (i, 1)
  let i1 := sgnStep.1
  let sgn := sgnStep.2
  match digit1 i1 with
  | some (i2, ds) =>
    match i2 with
    | '.' :: i3 =>
      let fs := i3.takeWhile (fun c => c.isDigit)
      expPart (i3.drop fs.length) (sgn * mantissa ds fs)
    | _ => expPart i2 (sgn * (digitsToNat ds : ℚ))
  | none =>
    match i1 with
    | '.' :: i3 =>
      match digit1 i3 with
      | some (i4, fs) => expPart i4 (sgn * mantissa [] fs)
      | none => none
    | _ => none

/-- nom `double` (used by `parser::float`): `recognize_float` plus the
`nan` / `infinity` / `inf` case-insensitive exceptional forms. -/
def double : P TotFloat := fun i =>
  match recogFloat i with
  | some r => some r
  | none =>
    match tagNoCase "nan".data i with
    | some (r, _) => some (r, TotFloat.nan)
    | none =>
      match tagNoCase "infinity".data i with
      | some (r, _) => some (r, TotFloat.inf)
      | none =>
        match tagNoCase "inf".data i with
        | some (r, _) => some (r, TotFloat.inf)
        | none => none

/-- `parser::float`: nom `double`. -/
def float : P TotFloat := double

def i64MaxNat : ℕ := 9223372036854775807

/-- `parser::integer`: `opt(char('-'))`, `digit1`, negative lookahead
`not(float)` on the remainder, then `str::parse::<i64>` on the digits (which
fails above `i64::MAX`), negated when the sign was present. -/
def integer : P ℤ := fun i =>
  let sgnStep : List Char × Bool :=
    match i with
    | '-' :: rest => (rest, true)
    | _ => (i, false)
  match digit1 sgnStep.1 with
  | some (i2, ds) =>
    match float i2 with
    | some _ => none
    | none =>
      let n := digitsToNat ds
      if n ≤ i64MaxNat then some (i2, if sgnStep.2 then -(n : ℤ) else (n : ℤ)) else none
  | none => none

/-- `parser::string`: `delimited(tag("\""), take_till(|c| c == '"'), tag("\""))`
— the body is taken verbatim, with no escape handling. -/
def string : P (List Char) := fun i =>
  match i with
  | '"' :: rest =>
    let body := rest.takeWhile (fun c => !(c == '"'))
    match rest.drop body.length with
    | '"' :: rest2 => some (rest2, body)
    | _ => none
  | _ => none

/-- nom `multispace1` character set: space, tab, carriage return, newline. -/
def isMultispace (c : Char) : Bool := c == ' ' || c == '\t' || c == '\r' || c == '\n'

/-- `parser::whitespace`: `multispace1`. -/
def whitespace : P Unit := fun i =>
  (takeWhile1 isMultispace i).map (fun r => (r.1, ()))

/-- `parser::comma`. -/
def comma : P Unit := fun i => (tag ",".data i).map (fun r => (r.1, ()))

/-- `parser::line_comment`: `//` then `is_not("\r\n")` (at least one char). -/
def line_comment : P Unit := fun i =>
  match tag "//".data i with
  | some (r, _) =>
    match takeWhile1 (fun c => !(c == '\r' || c == '\n')) r with
    | some (r2, _) => some (r2, ())
    | none => none
  | none => none

/-- `parser::block_comment`: `/*`, `take_until("*/")`, `*/`. -/
def block_comment : P Unit := fun i =>
  match tag "/*".data i with
  | some (r, _) =>
    match findSub "*/".data r with
    | some n => some ((r.drop n).drop 2, ())
    | none => none
  | none => none

/-- `parser::all_ignored`: `many0(alt((line_comment, block_comment, comma, whitespace)))`. -/
def all_ignored : P Unit := fun i =>
  (many0 (orElseP line_comment (orElseP block_comment (orElseP comma whitespace))) i).map
    (fun r => (r.1, ()))

/-- `parser::key`: a quoted string or a bare token. -/
def key : P (List Char) := orElseP string token

/-- The parsed value tree (`parser::TotValue`). The `Dict` payload models
`HashMap<String, TotValue>` as an association list built by
`hashMapFromList` (last writer wins, as `HashMap::from_iter`). -/
inductive TotValue where
  | Unit
  | Boolean (b : Bool)
  | String (s : List Char)
  | Integer (n : ℤ)
  | Float (f : TotFloat)
  | List (vs : List TotValue)
  | Dict (kvs : List (List Char × TotValue))
  | Generator (name : List Char)
  | Missing
  deriving Repr

/-- Insert with replacement, keeping first-insertion position (as a hash map). -/
def insertKV (m : List (List Char × TotValue)) (k : List Char) (v : TotValue) :
    List (List Char × TotValue) :=
  match m with
  | [] => [(k, v)]
  | (k0, v0) :: rest =>
    if k0 = k then (k0, v) :: rest else (k0, v0) :: insertKV rest k v

/-- `HashMap::from_iter`: later occurrences of a key overwrite earlier ones. -/
def hashMapFromList (l : List (List Char × TotValue)) : List (List Char × TotValue) :=
  l.foldl (fun m kv => insertKV m kv.1 kv.2) []

/-- `delimited(all_ignored, p, all_ignored)`. -/
def delimitedIgnored (p : P α) : P α := fun i =>
  match all_ignored i with
  | some (i1, _) =>
    match p i1 with
    | some (i2, v) =>
      match all_ignored i2 with
      | some (i3, _) => some (i3, v)
      | none => none
    | none => none
  | none => none

mutual

/-- `parser::scalar`: `alt((unit, boolean, integer, float, string, list, dict))`,
with fuel for the mutual bracket recursion. -/
def scalarF : ℕ → P TotValue
  | 0, _ => none
  | fuel + 1, i =>
    match unit i with
    | some (r, _) => some (r, TotValue.Unit)
    | none =>
    match boolean i with
    | some (r, b) => some (r, TotValue.Boolean b)
    | none =>
    match integer i with
    | some (r, n) => some (r, TotValue.Integer n)
    | none =>
    match float i with
    | some (r, q) => some (r, TotValue.Float q)
    | none =>
    match string i with
    | some (r, s) => some (r, TotValue.String s)
    | none =>
    match listF fuel i with
    | some r => some r
    | none => dictF fuel i

/-- `parser::list`: `delimited(tag("["), many0(delimited(all_ignored, scalar, all_ignored)), tag("]"))`. -/
def listF : ℕ → P TotValue
  | 0, _ => none
  | fuel + 1, i =>
    match tag "[".data i with
    | some (i1, _) =>
      match many0 (delimitedIgnored (scalarF fuel)) i1 with
      | some (i2, vs) =>
        match tag "]".data i2 with
        | some (i3, _) => some (i3, TotValue.List vs)
        | none => none
      | none => none
    | none => none

/-- `parser::dict`: `delimited(tag("{"), dict_contents, tag("}"))`. -/
def dictF : ℕ → P TotValue
  | 0, _ => none
  | fuel + 1, i =>
    match tag "\x7b".data i with
    | some (i1, _) =>
      match dictContentsF fuel i1 with
      | some (i2, v) =>
        match tag "\x7d".data i2 with
        | some (i3, _) => some (i3, v)
        | none => none
      | none => none
    | none => none

/-- `parser::dict_contents`: `many0(key_value)` collected into a dict. -/
def dictContentsF : ℕ → P TotValue
  | 0, _ => none
  | fuel + 1, i =>
    match many0 (keyValueF fuel) i with
    | some (r, kvs) => some (r, TotValue.Dict (hashMapFromList kvs))
    | none => none

/-- `parser::key_value`: `delimited(all_ignored, separated_pair(key, all_ignored, scalar), all_ignored)`. -/
def keyValueF : ℕ → P (List Char × TotValue)
  | 0, _ => none
  | fuel + 1, i =>
    match all_ignored i with
    | some (i1, _) =>
      match key i1 with
      | some (i2, k) =>
        match all_ignored i2 with
        | some (i3, _) =>
          match scalarF fuel i3 with
          | some (i4, v) =>
            match all_ignored i4 with
            | some (i5, _) => some (i5, (k, v))
            | none => none
          | none => none
        | none => none
      | none => none
    | none => none

end

/-- Fuel that cannot be exhausted on well-formed input: each step into the
mutual recursion consumes at least one input character per four fuel units. -/
def topFuel (i : List Char) : ℕ := 4 * i.length + 8

/-- `parser::scalar` at adequate fuel. -/
def scalar : P TotValue := fun i => scalarF (topFuel i) i

/-- `parser::dict_contents` at adequate fuel (also `Parser::dict_contents`,
whose body is identical). -/
def dict_contents : P TotValue := fun i => dictContentsF (topFuel i) i

/-- `parser::list` at adequate fuel (also `Parser::list`, identical body). -/
def listTop : P TotValue := fun i => listF (topFuel i) i

/-- `parser::Error`, restricted to the kind `parse` raises. -/
inductive ParserError where
  | ParseError
  deriving DecidableEq, Repr

/-- `parser::parse`: try the implicit-root dict body; if it does not consume
the entire input, try a bracketed list; otherwise `Error::ParseError`. -/
def parse (i : List Char) : Except ParserError TotValue :=
  match dict_contents i with
  | some ([], v) => .ok v
  | _ =>
    match listTop i with
    | some ([], v) => .ok v
    | _ => .error ParserError.ParseError

end Tot

namespace Tot

/-! `parser/string.rs` — the escape-decoding string parser. -/

def isAsciiHexDigit (c : Char) : Bool :=
  c.isDigit || ('a' ≤ c && c ≤ 'f') || ('A' ≤ c && c ≤ 'F')

def hexDigitVal (c : Char) : ℕ :=
  if c.isDigit then c.toNat - '0'.toNat
  else if 'a' ≤ c && c ≤ 'f' then c.toNat - 'a'.toNat + 10
  else c.toNat - 'A'.toNat + 10

def hexToNat (ds : List Char) : ℕ := ds.foldl (fun acc c => acc * 16 + hexDigitVal c) 0

/-- `parse_unicode`: `u{H…H}` with 1 to 6 hex digits, converted with
`char::from_u32` (fails on surrogates and values above the scalar range). -/
def parse_unicode : P Char := fun i =>
  match i with
  | 'u' :: '{' :: rest =>
    let hs := (rest.takeWhile isAsciiHexDigit).take 6
    if hs.isEmpty then none
    else
      match rest.drop hs.length with
      | '}' :: rest3 =>
        let n := hexToNat hs
        if n < 1114112 ∧ ¬(55296 ≤ n ∧ n ≤ 57343) then some (rest3, Char.ofNat n) else none
      | _ => none
  | _ => none

/-- `parse_escaped_char`: a backslash then one of the escape alphabet
(`parse_unicode` is tried first, as in the source's `alt`). -/
def parse_escaped_char : P Char := fun i =>
  match i with
  | '\\' :: rest =>
    match parse_unicode rest with
    | some r => some r
    | none =>
      match rest with
      | 'n' :: r2 => some (r2, '\n')
      | 'r' :: r2 => some (r2, '\r')
      | 't' :: r2 => some (r2, '\t')
      | 'b' :: r2 => some (r2, Char.ofNat 8)
      | 'f' :: r2 => some (r2, Char.ofNat 12)
      | '\\' :: r2 => some (r2, '\\')
      | '/' :: r2 => some (r2, '/')
      | '"' :: r2 => some (r2, '"')
      | _ => none
  | _ => none

/-- `parse_escaped_whitespace`: a backslash then `multispace1`. -/
def parse_escaped_whitespace : P Unit := fun i =>
  match i with
  | '\\' :: rest => (takeWhile1 isMultispace rest).map (fun r => (r.1, ()))
  | _ => none

/-- `literal`: `is_not("\"\\")`, nonempty. -/
def literal : P (List Char) := takeWhile1 (fun c => !(c == '"' || c == '\\'))

inductive StringFragment where
  | Literal (s : List Char)
  | EscapedChar (c : Char)
  | EscapedWhitespace
  deriving DecidableEq, Repr

/-- `parse_fragment`: `alt((literal, escaped char, escaped whitespace))`. -/
def parse_fragment : P StringFragment := fun i =>
  match literal i with
  | some (r, s) => some (r, StringFragment.Literal s)
  | none =>
    match parse_escaped_char i with
    | some (r, c) => some (r, StringFragment.EscapedChar c)
    | none => (parse_escaped_whitespace i).map (fun r => (r.1, StringFragment.EscapedWhitespace))

/-- `parse_string`: `delimited(char('"'), fold_many0(parse_fragment, …), char('"'))`
building the decoded string (escaped whitespace is elided). -/
def parse_string : P (List Char) := fun i =>
  match i with
  | '"' :: rest =>
    match many0 parse_fragment rest with
    | some (r, frags) =>
      match r with
      | '"' :: r2 =>
        some (r2, frags.foldl (fun acc f =>
          match f with
          | StringFragment.Literal s => acc ++ s
          | StringFragment.EscapedChar c => acc ++ [c]
          | StringFragment.EscapedWhitespace => acc) [])
      | _ => none
    | none => none
  | _ => none

end Tot

namespace De

open Tot

/-! `de.rs` — the pull deserializer. `DeState` is the `Deserializer` struct
(the borrowed input plus the depth counter); an operation is a function
`DeState → DeState × Except DeError α`, so that an erroring call still
returns the mutated state, as a `&mut self` method does. -/

/-- `error::Error`, restricted to the variant the deserializer raises. -/
inductive DeError where
  | SerdeError (msg : String)
  deriving DecidableEq, Repr

/-- The `Deserializer` struct: remaining input and the depth counter. -/
structure DeState where
  input : List Char
  depth : ℕ
  deriving DecidableEq, Repr

/-- A `&mut Deserializer` method returning `Result<α>`. -/
def M (α : Type) : Type := DeState → DeState × Except DeError α

/-- `Deserializer::peek`. -/
def peek : M Char := fun s =>
  match s.input with
  | c :: _ => (s, .ok c)
  | [] => (s, .error (.SerdeError "eof"))

/-- `Deserializer::take`: `peek` then advance one char. -/
def take : M Char := fun s =>
  match s.input with
  | c :: rest => ({ s with input := rest }, .ok c)
  | [] => (s, .error (.SerdeError "eof"))

/-- Lift a pure nom parser into a deserializer step (the `parse_*` pattern:
run the parser on `self.input`, store the remainder on success). -/
def liftP (p : P α) (msg : String) : M α := fun s =>
  match p s.input with
  | some (rem, v) => ({ s with input := rem }, .ok v)
  | none => (s, .error (.SerdeError msg))

/-- `Deserializer::parse_ws`: `parser::all_ignored` (never fails). -/
def parse_ws : M Unit := liftP all_ignored "ignored"

/-- `Deserializer::parse_unit`. -/
def parse_unit : M Unit := liftP Tot.unit "unit"

/-- `Deserializer::parse_bool`. -/
def parse_bool : M Bool := liftP boolean "bool"

/-- Modelled from the spec: `parser::number`, the parser `Deserializer::parse_number`
calls, is not present under `src/` (only its caller `de.rs` is). Spec §4.1:
"**Number** — decimal float per the standard grammar (optional sign, integer
part, optional `.` and fractional part, optional exponent). Parsed into
IEEE-754 double." — the same recognizer as `parser::float` (nom's `double`);
finite values are kept as the literal's exact rational. -/
def number : P TotFloat := double

/-- `Deserializer::parse_number`. -/
def parse_number : M TotFloat := liftP number "number"

/-- `Deserializer::parse_string` (via `parser::string`, no escape decoding). -/
def parse_string : M (List Char) := liftP Tot.string "string"

/-- `Deserializer::parse_key` (via `parser::key`). -/
def parse_key : M (List Char) := liftP Tot.key "key"

/-- Rust `f64::round`: round to the nearest integer, ties away from zero. -/
def rustRound (q : ℚ) : ℤ := if 0 ≤ q then ⌊q + 1 / 2⌋ else ⌈q - 1 / 2⌉

/-- Truncation toward zero (the first step of Rust's float-to-int `as` cast). -/
def ratTrunc (q : ℚ) : ℤ := if 0 ≤ q then ⌊q⌋ else ⌈q⌉

def i64Min : ℤ := -9223372036854775808
def i64Max : ℤ := 9223372036854775807
def u64Max : ℤ := 18446744073709551615

/-- Rust `f64::round` lifted to the modelled float values. -/
def f64Round : TotFloat → TotFloat
  | .finite q => .finite ((rustRound q : ℤ) : ℚ)
  | x => x

/-- Rust `as i64` on an f64: truncate toward zero, saturate at the i64
bounds, NaN to 0. -/
def castI64 : TotFloat → ℤ
  | .finite q =>
    let t := ratTrunc q
    if t < i64Min then i64Min else if i64Max < t then i64Max else t
  | .inf => i64Max
  | .nan => 0

/-- Rust `as u64` on an f64: truncate toward zero, saturate at 0 and
`u64::MAX`, NaN to 0 (the value is kept in `ℤ`). -/
def castU64 : TotFloat → ℤ
  | .finite q =>
    let t := ratTrunc q
    if t < 0 then 0 else if u64Max < t then u64Max else t
  | .inf => u64Max
  | .nan => 0

/-- `TryFromIntError` as converted into `error::Error`. -/
def tryFromErr : DeError := .SerdeError "out of range integral type conversion attempted"

/-- `i8::try_from` / …, as used after the cast. -/
def tryFromRange (lo hi v : ℤ) : Except DeError ℤ :=
  if lo ≤ v ∧ v ≤ hi then .ok v else .error tryFromErr

/-- `deserialize_i8` with the primitive visitor (`visit_i8` returns the value):
`i8::try_from(self.parse_number()?.round() as i64)?`. -/
def deserialize_i8 : M ℤ := fun s =>
  match parse_number s with
  | (s1, .ok x) => (s1, tryFromRange (-128) 127 (castI64 (f64Round x)))
  | (s1, .error e) => (s1, .error e)

/-- `deserialize_i16`. -/
def deserialize_i16 : M ℤ := fun s =>
  match parse_number s with
  | (s1, .ok x) => (s1, tryFromRange (-32768) 32767 (castI64 (f64Round x)))
  | (s1, .error e) => (s1, .error e)

/-- `deserialize_i32`. -/
def deserialize_i32 : M ℤ := fun s =>
  match parse_number s with
  | (s1, .ok x) => (s1, tryFromRange (-2147483648) 2147483647 (castI64 (f64Round x)))
  | (s1, .error e) => (s1, .error e)

/-- `deserialize_i64`: the raw saturating cast, no `try_from`. -/
def deserialize_i64 : M ℤ := fun s =>
  match parse_number s with
  | (s1, .ok x) => (s1, .ok (castI64 (f64Round x)))
  | (s1, .error e) => (s1, .error e)

/-- `deserialize_u8`: `u8::try_from(self.parse_number()?.round() as u64)?`. -/
def deserialize_u8 : M ℤ := fun s =>
  match parse_number s with
  | (s1, .ok x) => (s1, tryFromRange 0 255 (castU64 (f64Round x)))
  | (s1, .error e) => (s1, .error e)

/-- `deserialize_u16`. -/
def deserialize_u16 : M ℤ := fun s =>
  match parse_number s with
  | (s1, .ok x) => (s1, tryFromRange 0 65535 (castU64 (f64Round x)))
  | (s1, .error e) => (s1, .error e)

/-- `deserialize_u32`. -/
def deserialize_u32 : M ℤ := fun s =>
  match parse_number s with
  | (s1, .ok x) => (s1, tryFromRange 0 4294967295 (castU64 (f64Round x)))
  | (s1, .error e) => (s1, .error e)

/-- `deserialize_u64`: the raw saturating cast, no `try_from`. -/
def deserialize_u64 : M ℤ := fun s =>
  match parse_number s with
  | (s1, .ok x) => (s1, .ok (castU64 (f64Round x)))
  | (s1, .error e) => (s1, .error e)

/-- `deserialize_bool` with the primitive visitor. -/
def deserialize_bool : M Bool := parse_bool

/-- `deserialize_string` with the `String` visitor (returns the parsed string). -/
def deserialize_string : M (List Char) := parse_string

/-- `Deserializer::deserialize_seq`, parameterized by the visitor call
`visit` (`visitor.visit_seq(Access::new(self))`). Note the `?` after the
visitor call: on a visitor error the depth decrement is skipped. -/
def deserialize_seq (visit : M α) : M α := fun s =>
  match take s with
  | (s1, .error e) => (s1, .error e)
  | (s1, .ok c) =>
    if c = '[' then
      match visit { s1 with depth := s1.depth + 1 } with
      | (s3, .error e) => (s3, .error e)
      | (s3, .ok v) =>
        match take { s3 with depth := s3.depth - 1 } with
        | (s5, .error e) => (s5, .error e)
        | (s5, .ok c2) =>
          if c2 = ']' then ((parse_ws s5).1, .ok v)
          else (s5, .error (.SerdeError "Expected array end"))
    else (s1, .error (.SerdeError "Expected array open"))

/-- `Deserializer::deserialize_map`, parameterized by the visitor call.
At depth 0 (the implicit root) no braces are consumed. -/
def deserialize_map (visit : M α) : M α := fun s =>
  if s.depth < 1 then
    match visit { s with depth := s.depth + 1 } with
    | (s2, .error e) => (s2, .error e)
    | (s2, .ok v) => ({ s2 with depth := s2.depth - 1 }, .ok v)
  else
    match take s with
    | (s1, .error e) => (s1, .error e)
    | (s1, .ok c) =>
      if c = '{' then
        match visit { s1 with depth := s1.depth + 1 } with
        | (s3, .error e) => (s3, .error e)
        | (s3, .ok v) =>
          match take { s3 with depth := s3.depth - 1 } with
          | (s5, .error e) => (s5, .error e)
          | (s5, .ok c2) =>
            if c2 = '}' then ((parse_ws s5).1, .ok v)
            else (s5, .error (.SerdeError "Expected dict end"))
      else (s1, .error (.SerdeError "Expected dict open"))

/-- `Deserializer::deserialize_enum`, parameterized by the string-variant
visitor (`visitor.visit_enum(string.into_deserializer())`) and the access
visitor call. No trailing `parse_ws` after the closing `}` in the source. -/
def deserialize_enum (visitString : List Char → Except DeError α) (visit : M α) : M α := fun s =>
  match peek s with
  | (s0, .error e) => (s0, .error e)
  | (s0, .ok c0) =>
    if c0 = '"' then
      match parse_string s0 with
      | (s1, .ok str) => (s1, visitString str)
      | (s1, .error e) => (s1, .error e)
    else if s0.depth < 1 then
      match visit { s0 with depth := s0.depth + 1 } with
      | (s2, .error e) => (s2, .error e)
      | (s2, .ok v) => ({ s2 with depth := s2.depth - 1 }, .ok v)
    else
      match take s0 with
      | (s1, .error e) => (s1, .error e)
      | (s1, .ok c) =>
        if c = '{' then
          match visit { s1 with depth := s1.depth + 1 } with
          | (s3, .error e) => (s3, .error e)
          | (s3, .ok v) =>
            match take { s3 with depth := s3.depth - 1 } with
            | (s5, .error e) => (s5, .error e)
            | (s5, .ok c2) =>
              if c2 = '}' then (s5, .ok v)
              else (s5, .error (.SerdeError "Expected enum end"))
        else (s1, .error (.SerdeError "Expected enum open"))

/-- `SeqAccess::next_element_seed`, parameterized by the element seed. -/
def next_element_seed (seed : M α) : M (Option α) := fun s =>
  match parse_ws s with
  | (s1, .error e) => (s1, .error e)
  | (s1, .ok _) =>
    match peek s1 with
    | (s2, .error e) => (s2, .error e)
    | (s2, .ok c) =>
      if c = ']' then (s2, .ok none)
      else
        match seed s2 with
        | (s3, .ok v) =>
          match parse_ws s3 with
          | (s4, .ok _) => (s4, .ok (some v))
          | (s4, .error e) => (s4, .error e)
        | (s3, .error e) => (s3, .error e)

/-- `MapAccess::next_value_seed`, parameterized by the value seed. -/
def next_value_seed (seed : M α) : M α := fun s =>
  match parse_ws s with
  | (s1, .error e) => (s1, .error e)
  | (s1, .ok _) =>
    match seed s1 with
    | (s2, .ok v) =>
      match parse_ws s2 with
      | (s3, .ok _) => (s3, .ok v)
      | (s3, .error e) => (s3, .error e)
    | (s2, .error e) => (s2, .error e)

/-- The element loop of serde's `Vec<bool>` visitor over `SeqAccess`
(`while let Some(b) = seq.next_element()? { … }`), with fuel (every
accepted element strictly consumes input). -/
def visitSeqBoolF : ℕ → M (List Bool)
  | 0 => fun s => (s, .error (.SerdeError "fuel"))
  | fuel + 1 => fun s =>
    match next_element_seed deserialize_bool s with
    | (s1, .ok none) => (s1, .ok [])
    | (s1, .ok (some b)) =>
      match visitSeqBoolF fuel s1 with
      | (s2, .ok bs) => (s2, .ok (b :: bs))
      | (s2, .error e) => (s2, .error e)
    | (s1, .error e) => (s1, .error e)

/-- The `Vec<bool>` visitor call. -/
def visitSeqBool : M (List Bool) := fun s => visitSeqBoolF (s.input.length + 1) s

/-- `Vec::<bool>::deserialize`: `deserialize_seq` with the vec visitor. -/
def deserialize_vec_bool : M (List Bool) := deserialize_seq visitSeqBool

/-- `from_str::<T>` for a target whose `deserialize` is `m`: run it at depth 0
and require the input to be fully consumed. -/
def from_str_run (m : M α) (i : List Char) : Except DeError α :=
  match m ⟨i, 0⟩ with
  | (s, .ok v) => if s.input.isEmpty then .ok v else .error (.SerdeError "Input not empty")
  | (_, .error e) => .error e

def from_str_bool : List Char → Except DeError Bool := from_str_run deserialize_bool
def from_str_i8 : List Char → Except DeError ℤ := from_str_run deserialize_i8
def from_str_i32 : List Char → Except DeError ℤ := from_str_run deserialize_i32
def from_str_i64 : List Char → Except DeError ℤ := from_str_run deserialize_i64
def from_str_u8 : List Char → Except DeError ℤ := from_str_run deserialize_u8
def from_str_u64 : List Char → Except DeError ℤ := from_str_run deserialize_u64

end De

namespace De

open Tot

/-! The e2e test record `Data { boolean: bool, integer: i32, string: String }`
and the code serde derives for it. -/

structure Data where
  boolean : Bool
  integer : ℤ
  str : List Char
  deriving DecidableEq, Repr

/-- The derived field identifier enum for `Data`; unknown keys map to the
derive's ignore case. -/
inductive DataField where
  | boolean
  | integer
  | str
  | other
  deriving DecidableEq, Repr

/-- The derived field visitor: match the key text. -/
def dataFieldOf (k : List Char) : DataField :=
  if k = "boolean".data then .boolean
  else if k = "integer".data then .integer
  else if k = "string".data then .str
  else .other

/-- The error-branch tail of `MapAccess::next_key_seed`: when the key seed
fails, at depth < 2 consume ignored input (ignoring its result) and report
end of keys; otherwise propagate the error. -/
def keyFailBranch (s : DeState) (e : DeError) : DeState × Except DeError (Option DataField) :=
  if s.depth < 2 then ((parse_ws s).1, .ok none) else (s, .error e)

/-- The key-seed part of `next_key_seed` for `Data`: the `Field` deserializer
runs `deserialize_identifier`, i.e. `visit_string(self.parse_key()?)`. -/
def afterPeekKeyData (s : DeState) : DeState × Except DeError (Option DataField) :=
  match parse_key s with
  | (s1, .ok k) =>
    match parse_ws s1 with
    | (s2, .ok _) => (s2, .ok (some (dataFieldOf k)))
    | (s2, .error e) => (s2, .error e)
  | (s1, .error e) => keyFailBranch s1 e

/-- `MapAccess::next_key_seed` with the `Data` field seed: skip ignored input;
inside an explicit dict (depth > 1) a peeked `}` ends the keys (peeking at
end of input propagates the `eof` error); then run the key seed. -/
def next_key_seed_data : M (Option DataField) := fun s =>
  match parse_ws s with
  | (s1, .error e) => (s1, .error e)
  | (s1, .ok _) =>
    if 1 < s1.depth then
      match peek s1 with
      | (s2, .error e) => (s2, .error e)
      | (s2, .ok c) =>
        if c = '}' then (s2, .ok none)
        else afterPeekKeyData s2
    else afterPeekKeyData s1

/-- One iteration of the derived `visit_map` loop for `Data`: read a key with
`next_key_seed_data`; on a known key check for a duplicate, read the value with
the field's deserializer and continue via `rec`; at end of keys require all
three fields. Unknown keys are rejected by the model (serde's derive would
deserialize and discard the value; none of the inputs used here contains an
unknown key). -/
def visitMapDataBody (rec : Option Bool → Option ℤ → Option (List Char) → M Data)
    (ob : Option Bool) (oi : Option ℤ) (os : Option (List Char)) : M Data := fun s =>
  match next_key_seed_data s with
  | (s1, .error e) => (s1, .error e)
  | (s1, .ok none) =>
    match ob, oi, os with
    | some b, some n, some t => (s1, .ok ⟨b, n, t⟩)
    | _, _, _ => (s1, .error (.SerdeError "missing field"))
  | (s1, .ok (some f)) =>
    match f with
    | .boolean =>
      if ob.isSome then (s1, .error (.SerdeError "duplicate field boolean"))
      else
        match next_value_seed deserialize_bool s1 with
        | (s2, .ok b) => rec (some b) oi os s2
        | (s2, .error e) => (s2, .error e)
    | .integer =>
      if oi.isSome then (s1, .error (.SerdeError "duplicate field integer"))
      else
        match next_value_seed deserialize_i32 s1 with
        | (s2, .ok n) => rec ob (some n) os s2
        | (s2, .error e) => (s2, .error e)
    | .str =>
      if os.isSome then (s1, .error (.SerdeError "duplicate field string"))
      else
        match next_value_seed deserialize_string s1 with
        | (s2, .ok t) => rec ob oi (some t) s2
        | (s2, .error e) => (s2, .error e)
    | .other => (s1, .error (.SerdeError "unknown field"))

/-- The derived `visit_map` loop for `Data`: collect each field at most once,
then require all three. Fuel: every accepted key strictly consumes input. -/
def visitMapDataF : ℕ → Option Bool → Option ℤ → Option (List Char) → M Data
  | 0, _, _, _ => fun s => (s, .error (.SerdeError "fuel"))
  | fuel + 1, ob, oi, os => visitMapDataBody (visitMapDataF fuel) ob oi os

/-- `Data::deserialize`: `deserialize_struct` forwards to `deserialize_map`
with the derived visitor. -/
def deserialize_data : M Data :=
  deserialize_map (fun t => visitMapDataF (t.input.length + 1) none none none t)

/-- `from_str::<Data>`. -/
def from_str_data : List Char → Except DeError Data := from_str_run deserialize_data

end De

namespace Ser

open Tot

/-! `ser.rs` — the serializer with `DefaultFormatter` (the pretty formatter),
writing into a `Vec<u8>` buffer (which cannot fail, so the writer operations
are total functions on the state). -/

/-- `ser::RootType`. -/
inductive RootType where
  | None
  | Dict
  | List
  deriving DecidableEq, Repr

/-- `Serializer<Vec<u8>, DefaultFormatter>`: output buffer, indent counter,
root-container kind. -/
structure SerState where
  out : List Char
  indents : ℕ
  root_type : RootType
  deriving DecidableEq, Repr

/-- Append to the output buffer. -/
def wr (s : SerState) (t : List Char) : SerState := { s with out := s.out ++ t }

/-- The four-space indent unit. -/
def INDENT : List Char := "    ".data

/-- `Formatter::write_indent(None)`: `for _ in 1..self.get_indent()`, i.e.
`indents - 1` copies of the indent unit (none at indent 0 or 1). -/
def write_indent (s : SerState) : SerState :=
  wr s (List.flatten (List.replicate (s.indents - 1) INDENT))

/-- `write_indent(Some(n))` as used by `end_list`/`end_dict`: `n - 1` copies. -/
def write_indent_pre (s : SerState) (n : ℕ) : SerState :=
  wr s (List.flatten (List.replicate (n - 1) INDENT))

/-- `Formatter::write_bool`. -/
def write_bool (s : SerState) (b : Bool) : SerState :=
  wr s (if b then "true".data else "false".data)

/-- `Formatter::write_number` via ryu's `format_finite`. `serialize_i64`
casts the integer to `f64` first; for an integer of magnitude at most 2^53
(all that is serialized here) ryu prints the digits followed by `.0`. -/
def write_number_int (s : SerState) (n : ℤ) : SerState :=
  wr s ((toString n).data ++ ['.', '0'])

/-- `Formatter::write_key`: current indent, the key text verbatim, one space. -/
def write_key (s : SerState) (k : List Char) : SerState :=
  wr (wr (write_indent s) k) [' ']

/-- `Serializer::serialize_str`: `begin_string`, the raw fragment (the source
notes in a TODO that escapes are not handled), `end_string`. -/
def serialize_str (s : SerState) (v : List Char) : SerState :=
  wr (wr (wr s ['"']) v) ['"']

/-- `Formatter::begin_dict`: set the root type on first use; write `{` and a
newline only at indent > 0; then indent. -/
def begin_dict (s : SerState) : SerState :=
  let s := if s.root_type = RootType.None then { s with root_type := RootType.Dict } else s
  let s := if 0 < s.indents then wr s "\x7b\n".data else s
  { s with indents := s.indents + 1 }

/-- `Formatter::end_dict`: unindent; write the indent and `}` only when the
resulting indent is positive. -/
def end_dict (s : SerState) : SerState :=
  let s := { s with indents := s.indents - 1 }
  if 0 < s.indents then wr (write_indent_pre s s.indents) ['}'] else s

/-- `Formatter::begin_list`: as `begin_dict`, but on first use the root type
is set to `List` and an extra indent is taken. -/
def begin_list (s : SerState) : SerState :=
  let s :=
    if s.root_type = RootType.None then
      { s with root_type := RootType.List, indents := s.indents + 1 }
    else s
  let s := if 0 < s.indents then wr s "[\n".data else s
  { s with indents := s.indents + 1 }

/-- `Formatter::end_list`. -/
def end_list (s : SerState) : SerState :=
  let s := { s with indents := s.indents - 1 }
  if 0 < s.indents then wr (write_indent_pre s s.indents) [']'] else s

/-- `SerializeStruct::serialize_field` for `Data`'s three fields, then `end`:
each field writes its key, its value, and a newline. -/
def serialize_data (d : De.Data) (s0 : SerState) : SerState :=
  let s := begin_dict s0
  let s := wr (write_bool (write_key s "boolean".data) d.boolean) ['\n']
  let s := wr (write_number_int (write_key s "integer".data) d.integer) ['\n']
  let s := wr (serialize_str (write_key s "string".data) d.str) ['\n']
  end_dict s

/-- `to_string::<Data>`: serialize into an empty buffer and append a final
newline if the output does not already end with one. -/
def to_string_data (d : De.Data) : List Char :=
  let s := serialize_data d ⟨[], 0, RootType.None⟩
  if s.out.getLast? = some '\n' then s.out else s.out ++ ['\n']

end Ser

namespace Tot

/-- `dict_contents` consumes the entire input (`parse`'s first accepting test). -/
def dictComplete (i : List Char) : Bool :=
  match dict_contents i with
  | some ([], _) => true
  | _ => false

/-- `list` consumes the entire input (`parse`'s second accepting test). -/
def listComplete (i : List Char) : Bool :=
  match listTop i with
  | some ([], _) => true
  | _ => false

/-- Discriminator for the `Float` variant of `TotValue`. -/
def isFloatV : TotValue → Bool
  | .Float _ => true
  | _ => false

end Tot

namespace De

/-- `Result::is_ok`. -/
def isOkE : Except ε α → Bool
  | .ok _ => true
  | .error _ => false

/-- The depth-bracketed visitor call inside `deserialize_seq` is reached and
returns an error: the opening `[` was consumed and `visitor.visit_seq` failed,
so the `?` propagates the error before `self.depth -= 1` runs. -/
def seqVisitErred (visit : M α) (s : DeState) : Prop :=
  ∃ s1 s3 e, take s = (s1, .ok '[') ∧
    visit { s1 with depth := s1.depth + 1 } = (s3, .error e)

/-- The depth-bracketed visitor call inside `deserialize_map` is reached and
returns an error, in either the implicit-root branch (depth 0, no brace
consumed) or the braced branch (opening brace consumed). -/
def mapVisitErred (visit : M α) (s : DeState) : Prop :=
  (s.depth < 1 ∧ ∃ s2 e, visit { s with depth := s.depth + 1 } = (s2, .error e)) ∨
  (¬ s.depth < 1 ∧ ∃ s1 s3 e, take s = (s1, .ok '{') ∧
    visit { s1 with depth := s1.depth + 1 } = (s3, .error e))

/-- The depth-bracketed visitor call inside `deserialize_enum` is reached and
returns an error: the peeked character is not a quote (so the string-variant
branch is not taken) and the access-visitor call fails, in either the
implicit-root branch or the braced branch. -/
def enumVisitErred (visit : M α) (s : DeState) : Prop :=
  ∃ s0 c0, peek s = (s0, .ok c0) ∧ c0 ≠ '"' ∧
    ((s0.depth < 1 ∧ ∃ s2 e, visit { s0 with depth := s0.depth + 1 } = (s2, .error e)) ∨
     (¬ s0.depth < 1 ∧ ∃ s1 s3 e, take s0 = (s1, .ok '{') ∧
       visit { s1 with depth := s1.depth + 1 } = (s3, .error e)))

end De

deriving instance DecidableEq for Except

/-! Helper lemmas. -/

theorem take_depth (s : De.DeState) : ((De.take s).1).depth = s.depth := by
  unfold De.take
  cases s.input <;> rfl

theorem peek_depth (s : De.DeState) : ((De.peek s).1).depth = s.depth := by
  unfold De.peek
  cases s.input <;> rfl

theorem liftP_depth (p : Tot.P α) (msg : String) (s : De.DeState) :
    ((De.liftP p msg s).1).depth = s.depth := by
  unfold De.liftP
  rcases p s.input with _ | ⟨rem, v⟩ <;> rfl

theorem parse_ws_depth (s : De.DeState) : ((De.parse_ws s).1).depth = s.depth :=
  liftP_depth _ _ s

theorem parse_string_depth (s : De.DeState) : ((De.parse_string s).1).depth = s.depth :=
  liftP_depth _ _ s

/-- Root branch of `deserialize_map` (depth 0): no brace is consumed, the
visitor runs at depth 1, and the depth is restored on success. -/
theorem deserialize_map_root {α : Type} (visit : De.M α) (i : List Char)
    (s2 : De.DeState) (v : α) (hv : visit ⟨i, 1⟩ = (s2, .ok v)) :
    De.deserialize_map visit ⟨i, 0⟩ = ({ s2 with depth := s2.depth - 1 }, .ok v) := by
  show (if (0 : ℕ) < 1 then _ else _) = _
  rw [if_pos (by omega)]
  show (match visit ⟨i, 1⟩ with
    | (s3, Except.error e) => (s3, Except.error e)
    | (s3, Except.ok w) => ({ s3 with depth := s3.depth - 1 }, Except.ok w)) = _
  rw [hv]

/-- Unfolding the fuelled `Data` visitor loop by one step. -/
theorem visitMapDataF_succ (fuel : ℕ) (ob : Option Bool) (oi : Option ℤ)
    (os : Option (List Char)) :
    De.visitMapDataF (fuel + 1) ob oi os = De.visitMapDataBody (De.visitMapDataF fuel) ob oi os :=
  rfl

/-- One loop iteration that reads the `boolean` key and its value. -/
theorem visitMapDataBody_bool (rec : Option Bool → Option ℤ → Option (List Char) → De.M De.Data)
    (oi : Option ℤ) (os : Option (List Char)) (s s1 s2 : De.DeState) (b : Bool)
    (hk : De.next_key_seed_data s = (s1, Except.ok (some De.DataField.boolean)))
    (hv : De.next_value_seed De.deserialize_bool s1 = (s2, Except.ok b)) :
    De.visitMapDataBody rec none oi os s = rec (some b) oi os s2 := by
  unfold De.visitMapDataBody
  rw [hk]
  simp only []
  rw [hv]
  rfl

/-- One loop iteration that reads the `integer` key and its value. -/
theorem visitMapDataBody_int (rec : Option Bool → Option ℤ → Option (List Char) → De.M De.Data)
    (ob : Option Bool) (os : Option (List Char)) (s s1 s2 : De.DeState) (n : ℤ)
    (hk : De.next_key_seed_data s = (s1, Except.ok (some De.DataField.integer)))
    (hv : De.next_value_seed De.deserialize_i32 s1 = (s2, Except.ok n)) :
    De.visitMapDataBody rec ob none os s = rec ob (some n) os s2 := by
  unfold De.visitMapDataBody
  rw [hk]
  simp only []
  rw [hv]
  rfl

/-- One loop iteration that reads the `string` key and its value. -/
theorem visitMapDataBody_str (rec : Option Bool → Option ℤ → Option (List Char) → De.M De.Data)
    (ob : Option Bool) (oi : Option ℤ) (s s1 s2 : De.DeState) (t : List Char)
    (hk : De.next_key_seed_data s = (s1, Except.ok (some De.DataField.str)))
    (hv : De.next_value_seed De.deserialize_string s1 = (s2, Except.ok t)) :
    De.visitMapDataBody rec ob oi none s = rec ob oi (some t) s2 := by
  unfold De.visitMapDataBody
  rw [hk]
  simp only []
  rw [hv]
  rfl

/-- The final loop iteration: end of keys with all three fields present. -/
theorem visitMapDataBody_end (rec : Option Bool → Option ℤ → Option (List Char) → De.M De.Data)
    (b : Bool) (n : ℤ) (t : List Char) (s s1 : De.DeState)
    (hk : De.next_key_seed_data s = (s1, Except.ok none)) :
    De.visitMapDataBody rec (some b) (some n) (some t) s = (s1, Except.ok ⟨b, n, t⟩) := by
  unfold De.visitMapDataBody
  rw [hk]

/-- S1 key read 1: `boolean`. -/
theorem dataKey1 : De.next_key_seed_data
    ⟨"boolean true\ninteger 22.0\nstring \"hello world\"\n".data, 1⟩ =
    (⟨"true\ninteger 22.0\nstring \"hello world\"\n".data, 1⟩, .ok (some .boolean)) := by decide

/-- S1 value read 1: `true`. -/
theorem dataVal1 : De.next_value_seed De.deserialize_bool
    ⟨"true\ninteger 22.0\nstring \"hello world\"\n".data, 1⟩ =
    (⟨"integer 22.0\nstring \"hello world\"\n".data, 1⟩, .ok true) := by decide

/-- S1 key read 2: `integer`. -/
theorem dataKey2 : De.next_key_seed_data
    ⟨"integer 22.0\nstring \"hello world\"\n".data, 1⟩ =
    (⟨"22.0\nstring \"hello world\"\n".data, 1⟩, .ok (some .integer)) := by decide

attribute [local semireducible] Rat.add Rat.mul Rat.inv Rat.sub in
/-- S1 value read 2: `22.0` rounds to the i32 value 22. -/
theorem dataVal2 : De.next_value_seed De.deserialize_i32
    ⟨"22.0\nstring \"hello world\"\n".data, 1⟩ =
    (⟨"string \"hello world\"\n".data, 1⟩, .ok 22) := by decide

/-- S1 key read 3: `string`. -/
theorem dataKey3 : De.next_key_seed_data
    ⟨"string \"hello world\"\n".data, 1⟩ =
    (⟨"\"hello world\"\n".data, 1⟩, .ok (some .str)) := by decide

/-- S1 value read 3: `"hello world"`. -/
theorem dataVal3 : De.next_value_seed De.deserialize_string
    ⟨"\"hello world\"\n".data, 1⟩ =
    (⟨([] : List Char), 1⟩, .ok "hello world".data) := by decide

/-- End of keys on exhausted input at the implicit root. -/
theorem dataKeyEnd : De.next_key_seed_data ⟨([] : List Char), 1⟩ =
    (⟨[], 1⟩, .ok none) := by decide

/-- The derived `Data` map-visitor loop evaluated over the S1 document. -/
theorem visitMapData_s1 : (fun t => De.visitMapDataF (t.input.length + 1) none none none t)
    (⟨"boolean true\ninteger 22.0\nstring \"hello world\"\n".data, 1⟩ : De.DeState) =
    (⟨[], 1⟩, .ok ⟨true, 22, "hello world".data⟩) := by
  show De.visitMapDataF ("boolean true\ninteger 22.0\nstring \"hello world\"\n".data.length + 1)
      none none none ⟨"boolean true\ninteger 22.0\nstring \"hello world\"\n".data, 1⟩ = _
  rw [show ("boolean true\ninteger 22.0\nstring \"hello world\"\n".data.length + 1 : ℕ) = 47 + 1
    from by decide]
  rw [visitMapDataF_succ, visitMapDataBody_bool _ _ _ _ _ _ _ dataKey1 dataVal1]
  rw [show (47 : ℕ) = 46 + 1 from rfl]
  rw [visitMapDataF_succ, visitMapDataBody_int _ _ _ _ _ _ _ dataKey2 dataVal2]
  rw [show (46 : ℕ) = 45 + 1 from rfl]
  rw [visitMapDataF_succ, visitMapDataBody_str _ _ _ _ _ _ _ dataKey3 dataVal3]
  rw [show (45 : ℕ) = 44 + 1 from rfl]
  rw [visitMapDataF_succ, visitMapDataBody_end _ _ _ _ _ _ dataKeyEnd]

/-- Claim C1: serializing the record `(boolean := true, integer := 22,
string := "hello world")` produces exactly the S1 text; deserializing that
text yields the record back; and re-encoding the decoded record reproduces
the text byte for byte. -/
theorem c1_flat_record_round_trip :
    Ser.to_string_data ⟨true, 22, "hello world".data⟩ =
      "boolean true\ninteger 22.0\nstring \"hello world\"\n".data ∧
    De.from_str_data "boolean true\ninteger 22.0\nstring \"hello world\"\n".data =
      .ok ⟨true, 22, "hello world".data⟩ ∧
    (De.from_str_data "boolean true\ninteger 22.0\nstring \"hello world\"\n".data).map
      Ser.to_string_data =
      .ok "boolean true\ninteger 22.0\nstring \"hello world\"\n".data := by
  have hdecode : De.from_str_data "boolean true\ninteger 22.0\nstring \"hello world\"\n".data =
      .ok ⟨true, 22, "hello world".data⟩ := by
    have h := deserialize_map_root
      (fun t => De.visitMapDataF (t.input.length + 1) none none none t)
      ("boolean true\ninteger 22.0\nstring \"hello world\"\n".data)
      ⟨[], 1⟩ ⟨true, 22, "hello world".data⟩ visitMapData_s1
    have hds : De.deserialize_data
        ⟨"boolean true\ninteger 22.0\nstring \"hello world\"\n".data, 0⟩ =
        (⟨[], 0⟩, .ok ⟨true, 22, "hello world".data⟩) := h
    show De.from_str_run De.deserialize_data _ = _
    unfold De.from_str_run
    rw [hds]
    rfl
  refine ⟨by rfl, hdecode, ?_⟩
  rw [hdecode]
  rfl

/-- Claim C5: the string parser used by the value grammar and the
deserializer (`parser::string`) returns the quoted body verbatim, so the
four source characters `"\n"` decode to the two characters backslash-`n`,
while the escape decoder `parser/string.rs::parse_string` (unused by the
consumer path) decodes them to the single newline character the claim
describes. -/
theorem c5_string_escape_divergence :
    Tot.string "\"\\n\"".data = some ([], ['\\', 'n']) ∧
    De.parse_string ⟨"\"\\n\"".data, 0⟩ = (⟨[], 0⟩, .ok ['\\', 'n']) ∧
    Tot.parse_string "\"\\n\"".data = some ([], ['\n']) :=
  ⟨rfl, rfl, rfl⟩

/-- Claim C6: `serialize_str` writes the string between quotes with no
escaping at all, so a string containing a double quote is emitted as text
that does not parse back to the original string. -/
theorem c6_serialize_str_unescaped :
    (Ser.serialize_str ⟨[], 0, Ser.RootType.None⟩ "a\"b".data).out = "\"a\"b\"".data ∧
    Tot.string "\"a\"b\"".data = some ("b\"".data, "a".data) ∧
    (Tot.string "\"a\"b\"".data).map (fun r => r.2) ≠ some "a\"b".data :=
  ⟨rfl, rfl, by decide⟩

/-- Claim C7 counterexample: the numeric literal `1` parses into the
`Integer` variant, not into a unique double-carrying `Number`/`Float`
variant as the claim states. -/
theorem c7_numeric_variant_counterexample :
    Tot.scalar "1".data = some ([], Tot.TotValue.Integer 1) ∧
    (Tot.scalar "1".data).map (fun r => Tot.isFloatV r.2) = some false :=
  ⟨rfl, rfl⟩

set_option maxHeartbeats 800000 in
attribute [local semireducible] Rat.add Rat.mul Rat.inv Rat.sub in
/-- Claim C7 amended: the value tree has two numeric variants. A literal
parses as `Integer` when it is an optionally negated digit run with no
float continuation that fits in `i64` (tried first), and as `Float`
otherwise; the decision is made at parse time by the literal's form. -/
theorem c7_two_numeric_variants :
    Tot.scalar "1".data = some ([], Tot.TotValue.Integer 1) ∧
    Tot.scalar "10]".data = some ("]".data, Tot.TotValue.Integer 10) ∧
    Tot.scalar "2.5".data = some ([], Tot.TotValue.Float (Tot.TotFloat.finite (5 / 2))) ∧
    Tot.scalar "9223372036854775809".data =
      some ([], Tot.TotValue.Float (Tot.TotFloat.finite 9223372036854775809)) := by
  refine ⟨rfl, rfl, ?_, ?_⟩
  · have hunit : Tot.unit "2.5".data = none := by decide
    have hbool : Tot.boolean "2.5".data = none := by decide
    have hint : Tot.integer "2.5".data = none := by decide
    have hfloat : Tot.float "2.5".data = some ([], Tot.TotFloat.finite (5 / 2)) := by decide
    show Tot.scalarF 20 "2.5".data = _
    simp only [Tot.scalarF, hunit, hbool, hint, hfloat]
  · have hunit : Tot.unit "9223372036854775809".data = none := by decide
    have hbool : Tot.boolean "9223372036854775809".data = none := by decide
    have hint : Tot.integer "9223372036854775809".data = none := by decide
    have hfloat : Tot.float "9223372036854775809".data =
        some ([], Tot.TotFloat.finite 9223372036854775809) := by decide
    show Tot.scalarF 84 "9223372036854775809".data = _
    simp only [Tot.scalarF, hunit, hbool, hint, hfloat]


/-- Claim C8: ignored runs (comments, commas, whitespace) between tokens do
not affect the parsed value: `/*c*/ true //t` parses as boolean `true` after
skipping ignored input, and the three list documents `[1, 2, 3]`, `[1 2 3]`
and `[/* inner */ 1 2\n,3]` all parse to the same three-element list. -/
theorem c8_ignored_insensitivity :
    Tot.all_ignored "/*c*/ true //t".data = some ("true //t".data, ()) ∧
    Tot.boolean "true //t".data = some (" //t".data, true) ∧
    Tot.parse "[1, 2, 3]".data =
      .ok (Tot.TotValue.List
        [Tot.TotValue.Integer 1, Tot.TotValue.Integer 2, Tot.TotValue.Integer 3]) ∧
    Tot.parse "[1 2 3]".data =
      .ok (Tot.TotValue.List
        [Tot.TotValue.Integer 1, Tot.TotValue.Integer 2, Tot.TotValue.Integer 3]) ∧
    Tot.parse "[/* inner */ 1 2\n,3]".data =
      .ok (Tot.TotValue.List
        [Tot.TotValue.Integer 1, Tot.TotValue.Integer 2, Tot.TotValue.Integer 3]) :=
  ⟨rfl, rfl, rfl, rfl, rfl⟩

/-- Claim C10: when the root dict body does not consume the whole input but a
bracketed list does, `parse` returns that `List` value; when neither
consumes the whole input, `parse` fails with `ParseError`; a complete root
dict body always wins first. -/
theorem c10_root_list_fallback :
    (∀ i v, Tot.dictComplete i = false → Tot.listTop i = some ([], v) →
      Tot.parse i = .ok v) ∧
    (∀ i, Tot.dictComplete i = false → Tot.listComplete i = false →
      Tot.parse i = .error Tot.ParserError.ParseError) ∧
    (∀ i v, Tot.dict_contents i = some ([], v) → Tot.parse i = .ok v) := by
  refine ⟨?_, ?_, ?_⟩
  · intro i v hdc hl
    unfold Tot.parse
    rcases hd : Tot.dict_contents i with _ | ⟨rem, w⟩
    · rw [hl]
    · rcases rem with _ | ⟨c, cs⟩
      · exfalso
        unfold Tot.dictComplete at hdc
        rw [hd] at hdc
        exact Bool.noConfusion (show true = false from hdc)
      · rw [hl]
  · intro i hdc hlc
    unfold Tot.parse
    rcases hd : Tot.dict_contents i with _ | ⟨rem, w⟩
    · rcases hl : Tot.listTop i with _ | ⟨rem2, v2⟩
      · rfl
      · rcases rem2 with _ | ⟨c2, cs2⟩
        · exfalso
          unfold Tot.listComplete at hlc
          rw [hl] at hlc
          exact Bool.noConfusion (show true = false from hlc)
        · rfl
    · rcases rem with _ | ⟨c, cs⟩
      · exfalso
        unfold Tot.dictComplete at hdc
        rw [hd] at hdc
        exact Bool.noConfusion (show true = false from hdc)
      · rcases hl : Tot.listTop i with _ | ⟨rem2, v2⟩
        · rfl
        · rcases rem2 with _ | ⟨c2, cs2⟩
          · exfalso
            unfold Tot.listComplete at hlc
            rw [hl] at hlc
            exact Bool.noConfusion (show true = false from hlc)
          · rfl
  · intro i v hd
    unfold Tot.parse
    rw [hd]

/-- Claim C10 witness: the document `[true]` is not a complete root dict
body but is a complete bracketed list, and `parse` returns that list. -/
theorem c10_root_list_fallback_witness :
    Tot.parse "[true]".data = .ok (Tot.TotValue.List [Tot.TotValue.Boolean true]) :=
  c10_root_list_fallback.1 "[true]".data (Tot.TotValue.List [Tot.TotValue.Boolean true])
    (by rfl) (by rfl)

/-- Claim C4 counterexample: calling `deserialize_seq` with the `Vec<bool>`
visitor on the input `[true` (no closing bracket) returns an error, and the
depth after the call is 1 although it was 0 before: the decrement is skipped
when the visitor call fails. -/
theorem c4_depth_counterexample :
    ((De.deserialize_seq De.visitSeqBool ⟨"[true".data, 0⟩).1).depth = 1 ∧
    (De.deserialize_seq De.visitSeqBool ⟨"[true".data, 0⟩).2 =
      .error (De.DeError.SerdeError "eof") ∧
    ¬ ((De.deserialize_seq De.visitSeqBool ⟨"[true".data, 0⟩).1).depth = 0 :=
  ⟨rfl, rfl, by decide⟩

/-- Claim C9 counterexample: `from_str::<bool>` on `true ` — the decoded
value followed only by ignored input (a trailing space) — fails with
`Input not empty`, refuting the claim that trailing ignored input is always
accepted. -/
theorem c9_trailing_ignored_counterexample :
    De.from_str_bool "true ".data = .error (De.DeError.SerdeError "Input not empty") :=
  rfl

/-! Helper lemmas for the integer-coercion claims. -/

theorem ratTrunc_intCast (n : ℤ) : De.ratTrunc ((n : ℤ) : ℚ) = n := by
  unfold De.ratTrunc
  split
  · exact Int.floor_intCast n
  · exact Int.ceil_intCast n

theorem castI64_round (q : ℚ) :
    De.castI64 (De.f64Round (.finite q)) =
      (if De.rustRound q < De.i64Min then De.i64Min
       else if De.i64Max < De.rustRound q then De.i64Max else De.rustRound q) := by
  show De.castI64 (.finite ((De.rustRound q : ℤ) : ℚ)) = _
  simp only [De.castI64, ratTrunc_intCast]

theorem castU64_round (q : ℚ) :
    De.castU64 (De.f64Round (.finite q)) =
      (if De.rustRound q < 0 then 0
       else if De.u64Max < De.rustRound q then De.u64Max else De.rustRound q) := by
  show De.castU64 (.finite ((De.rustRound q : ℤ) : ℚ)) = _
  simp only [De.castU64, ratTrunc_intCast]

theorem parse_number_of (s : De.DeState) (rem : List Char) (f : Tot.TotFloat)
    (h : De.number s.input = some (rem, f)) :
    De.parse_number s = ({ s with input := rem }, .ok f) := by
  unfold De.parse_number De.liftP
  rw [h]

theorem tryFromRange_neg {lo hi v : ℤ} (h : ¬(lo ≤ v ∧ v ≤ hi)) :
    De.tryFromRange lo hi v = .error De.tryFromErr := by
  unfold De.tryFromRange
  rw [if_neg h]

theorem tryFromRange_pos {lo hi v : ℤ} (h : lo ≤ v ∧ v ≤ hi) :
    De.tryFromRange lo hi v = .ok v := by
  unfold De.tryFromRange
  rw [if_pos h]

theorem deserialize_i8_eq (s : De.DeState) (rem : List Char) (q : ℚ)
    (h : De.number s.input = some (rem, .finite q)) :
    De.deserialize_i8 s = ({ s with input := rem },
      De.tryFromRange (-128) 127 (De.castI64 (De.f64Round (.finite q)))) := by
  unfold De.deserialize_i8
  rw [parse_number_of s rem _ h]

theorem deserialize_i16_eq (s : De.DeState) (rem : List Char) (q : ℚ)
    (h : De.number s.input = some (rem, .finite q)) :
    De.deserialize_i16 s = ({ s with input := rem },
      De.tryFromRange (-32768) 32767 (De.castI64 (De.f64Round (.finite q)))) := by
  unfold De.deserialize_i16
  rw [parse_number_of s rem _ h]

theorem deserialize_i32_eq (s : De.DeState) (rem : List Char) (q : ℚ)
    (h : De.number s.input = some (rem, .finite q)) :
    De.deserialize_i32 s = ({ s with input := rem },
      De.tryFromRange (-2147483648) 2147483647 (De.castI64 (De.f64Round (.finite q)))) := by
  unfold De.deserialize_i32
  rw [parse_number_of s rem _ h]

theorem deserialize_i64_eq (s : De.DeState) (rem : List Char) (q : ℚ)
    (h : De.number s.input = some (rem, .finite q)) :
    De.deserialize_i64 s = ({ s with input := rem },
      .ok (De.castI64 (De.f64Round (.finite q)))) := by
  unfold De.deserialize_i64
  rw [parse_number_of s rem _ h]

theorem deserialize_u8_eq (s : De.DeState) (rem : List Char) (q : ℚ)
    (h : De.number s.input = some (rem, .finite q)) :
    De.deserialize_u8 s = ({ s with input := rem },
      De.tryFromRange 0 255 (De.castU64 (De.f64Round (.finite q)))) := by
  unfold De.deserialize_u8
  rw [parse_number_of s rem _ h]

theorem deserialize_u16_eq (s : De.DeState) (rem : List Char) (q : ℚ)
    (h : De.number s.input = some (rem, .finite q)) :
    De.deserialize_u16 s = ({ s with input := rem },
      De.tryFromRange 0 65535 (De.castU64 (De.f64Round (.finite q)))) := by
  unfold De.deserialize_u16
  rw [parse_number_of s rem _ h]

theorem deserialize_u32_eq (s : De.DeState) (rem : List Char) (q : ℚ)
    (h : De.number s.input = some (rem, .finite q)) :
    De.deserialize_u32 s = ({ s with input := rem },
      De.tryFromRange 0 4294967295 (De.castU64 (De.f64Round (.finite q)))) := by
  unfold De.deserialize_u32
  rw [parse_number_of s rem _ h]

theorem deserialize_u64_eq (s : De.DeState) (rem : List Char) (q : ℚ)
    (h : De.number s.input = some (rem, .finite q)) :
    De.deserialize_u64 s = ({ s with input := rem },
      .ok (De.castU64 (De.f64Round (.finite q)))) := by
  unfold De.deserialize_u64
  rw [parse_number_of s rem _ h]

set_option maxHeartbeats 1600000 in
attribute [local semireducible] Rat.add Rat.mul Rat.inv Rat.sub in
/-- Claim C2: for widths 8/16/32, a rounded numeric value outside the target
range makes deserialization fail (for unsigned widths, a value above the
range fails while a negative value saturates to 0); for the 64-bit widths
the value saturates to the nearest bound; concretely,
`9223372036854775809` as signed 64-bit yields `9223372036854775807` and
`-3` as unsigned 8-bit yields `0`. -/
theorem c2_integer_coercion_bounds :
    (∀ (s : De.DeState) (q : ℚ) (rem : List Char),
      De.number s.input = some (rem, .finite q) →
      (De.rustRound q < -128 ∨ 127 < De.rustRound q) →
      De.deserialize_i8 s = ({ s with input := rem }, .error De.tryFromErr)) ∧
    (∀ (s : De.DeState) (q : ℚ) (rem : List Char),
      De.number s.input = some (rem, .finite q) →
      (De.rustRound q < -32768 ∨ 32767 < De.rustRound q) →
      De.deserialize_i16 s = ({ s with input := rem }, .error De.tryFromErr)) ∧
    (∀ (s : De.DeState) (q : ℚ) (rem : List Char),
      De.number s.input = some (rem, .finite q) →
      (De.rustRound q < -2147483648 ∨ 2147483647 < De.rustRound q) →
      De.deserialize_i32 s = ({ s with input := rem }, .error De.tryFromErr)) ∧
    (∀ (s : De.DeState) (q : ℚ) (rem : List Char),
      De.number s.input = some (rem, .finite q) →
      255 < De.rustRound q →
      De.deserialize_u8 s = ({ s with input := rem }, .error De.tryFromErr)) ∧
    (∀ (s : De.DeState) (q : ℚ) (rem : List Char),
      De.number s.input = some (rem, .finite q) →
      65535 < De.rustRound q →
      De.deserialize_u16 s = ({ s with input := rem }, .error De.tryFromErr)) ∧
    (∀ (s : De.DeState) (q : ℚ) (rem : List Char),
      De.number s.input = some (rem, .finite q) →
      4294967295 < De.rustRound q →
      De.deserialize_u32 s = ({ s with input := rem }, .error De.tryFromErr)) ∧
    (∀ (s : De.DeState) (q : ℚ) (rem : List Char),
      De.number s.input = some (rem, .finite q) →
      De.rustRound q < 0 →
      De.deserialize_u8 s = ({ s with input := rem }, .ok 0)) ∧
    (∀ (s : De.DeState) (q : ℚ) (rem : List Char),
      De.number s.input = some (rem, .finite q) →
      De.rustRound q < 0 →
      De.deserialize_u16 s = ({ s with input := rem }, .ok 0)) ∧
    (∀ (s : De.DeState) (q : ℚ) (rem : List Char),
      De.number s.input = some (rem, .finite q) →
      De.rustRound q < 0 →
      De.deserialize_u32 s = ({ s with input := rem }, .ok 0)) ∧
    (∀ (s : De.DeState) (q : ℚ) (rem : List Char),
      De.number s.input = some (rem, .finite q) →
      De.rustRound q < 0 →
      De.deserialize_u64 s = ({ s with input := rem }, .ok 0)) ∧
    (∀ (s : De.DeState) (q : ℚ) (rem : List Char),
      De.number s.input = some (rem, .finite q) →
      De.deserialize_i64 s = ({ s with input := rem },
        .ok (if De.rustRound q < De.i64Min then De.i64Min
          else if De.i64Max < De.rustRound q then De.i64Max else De.rustRound q))) ∧
    (∀ (s : De.DeState) (q : ℚ) (rem : List Char),
      De.number s.input = some (rem, .finite q) →
      De.deserialize_u64 s = ({ s with input := rem },
        .ok (if De.rustRound q < 0 then 0
          else if De.u64Max < De.rustRound q then De.u64Max else De.rustRound q))) ∧
    De.from_str_i64 "9223372036854775809".data = .ok 9223372036854775807 ∧
    De.from_str_u8 "-3".data = .ok 0 := by
  refine ⟨?_, ?_, ?_, ?_, ?_, ?_, ?_, ?_, ?_, ?_, ?_, ?_, by decide, by decide⟩
  · intro s q rem h hout
    rw [deserialize_i8_eq s rem q h, castI64_round]
    rw [tryFromRange_neg (by unfold De.i64Min De.i64Max; split_ifs <;> omega)]
  · intro s q rem h hout
    rw [deserialize_i16_eq s rem q h, castI64_round]
    rw [tryFromRange_neg (by unfold De.i64Min De.i64Max; split_ifs <;> omega)]
  · intro s q rem h hout
    rw [deserialize_i32_eq s rem q h, castI64_round]
    rw [tryFromRange_neg (by unfold De.i64Min De.i64Max; split_ifs <;> omega)]
  · intro s q rem h hout
    rw [deserialize_u8_eq s rem q h, castU64_round]
    rw [tryFromRange_neg (by unfold De.u64Max; split_ifs <;> omega)]
  · intro s q rem h hout
    rw [deserialize_u16_eq s rem q h, castU64_round]
    rw [tryFromRange_neg (by unfold De.u64Max; split_ifs <;> omega)]
  · intro s q rem h hout
    rw [deserialize_u32_eq s rem q h, castU64_round]
    rw [tryFromRange_neg (by unfold De.u64Max; split_ifs <;> omega)]
  · intro s q rem h hneg
    rw [deserialize_u8_eq s rem q h, castU64_round]
    have hx : (if De.rustRound q < 0 then 0
        else if De.u64Max < De.rustRound q then De.u64Max else De.rustRound q) = (0 : ℤ) :=
      if_pos hneg
    rw [hx, tryFromRange_pos (by omega)]
  · intro s q rem h hneg
    rw [deserialize_u16_eq s rem q h, castU64_round]
    have hx : (if De.rustRound q < 0 then 0
        else if De.u64Max < De.rustRound q then De.u64Max else De.rustRound q) = (0 : ℤ) :=
      if_pos hneg
    rw [hx, tryFromRange_pos (by omega)]
  · intro s q rem h hneg
    rw [deserialize_u32_eq s rem q h, castU64_round]
    have hx : (if De.rustRound q < 0 then 0
        else if De.u64Max < De.rustRound q then De.u64Max else De.rustRound q) = (0 : ℤ) :=
      if_pos hneg
    rw [hx, tryFromRange_pos (by omega)]
  · intro s q rem h hneg
    rw [deserialize_u64_eq s rem q h, castU64_round]
    rw [if_pos hneg]
  · intro s q rem h
    rw [deserialize_i64_eq s rem q h, castI64_round]
  · intro s q rem h
    rw [deserialize_u64_eq s rem q h, castU64_round]

set_option maxHeartbeats 1600000 in
attribute [local semireducible] Rat.add Rat.mul Rat.inv Rat.sub in
/-- Claim C2 witness: decoding `128` as signed 8-bit fails (rounded value
outside the i8 range), via the general bound theorem at a concrete input. -/
theorem c2_integer_coercion_bounds_witness :
    De.deserialize_i8 ⟨"128".data, 0⟩ = (⟨[], 0⟩, .error De.tryFromErr) := by
  have h := c2_integer_coercion_bounds.1 ⟨"128".data, 0⟩ 128 [] (by decide) (by decide)
  exact h

theorem rustRound_bounds (q : ℚ) :
    q - 1 / 2 ≤ (De.rustRound q : ℚ) ∧ (De.rustRound q : ℚ) ≤ q + 1 / 2 := by
  unfold De.rustRound
  split
  · have h1 : q + 1 / 2 < (⌊q + 1 / 2⌋ : ℚ) + 1 := Int.lt_floor_add_one _
    have h2 : (⌊q + 1 / 2⌋ : ℚ) ≤ q + 1 / 2 := Int.floor_le _
    constructor <;> push_cast <;> linarith
  · have h1 : q - 1 / 2 ≤ (⌈q - 1 / 2⌉ : ℚ) := Int.le_ceil _
    have h2 : (⌈q - 1 / 2⌉ : ℚ) < (q - 1 / 2) + 1 := Int.ceil_lt_add_one _
    constructor <;> push_cast <;> linarith

set_option maxHeartbeats 1600000 in
attribute [local semireducible] Rat.add Rat.mul Rat.inv Rat.sub in
/-- Claim C3: integer consumption rounds the parsed number to the nearest
integer with ties rounded away from zero before range checking: `2.5` as
signed 32-bit yields 3 and `-2.5` yields -3; `rustRound` (the model of Rust
`f64::round`) is a nearest integer for every value and rounds halves away
from zero, and an in-range rounded value is exactly what `deserialize_i32`
returns. -/
theorem c3_round_ties_away :
    De.from_str_i32 "2.5".data = .ok 3 ∧
    De.from_str_i32 "-2.5".data = .ok (-3) ∧
    (∀ (q : ℚ) (n : ℤ), |q - (De.rustRound q : ℚ)| ≤ |q - (n : ℚ)|) ∧
    (∀ n : ℤ, 0 ≤ n → De.rustRound ((n : ℚ) + 1 / 2) = n + 1) ∧
    (∀ n : ℤ, 0 ≤ n → De.rustRound (-((n : ℚ) + 1 / 2)) = -(n + 1)) ∧
    (∀ (s : De.DeState) (q : ℚ) (rem : List Char),
      De.number s.input = some (rem, .finite q) →
      -2147483648 ≤ De.rustRound q → De.rustRound q ≤ 2147483647 →
      De.deserialize_i32 s = ({ s with input := rem }, .ok (De.rustRound q))) := by
  refine ⟨by decide, by decide, ?_, ?_, ?_, ?_⟩
  · intro q n
    have hb := rustRound_bounds q
    by_cases hn : n = De.rustRound q
    · rw [hn]
    · have habs : |q - (De.rustRound q : ℚ)| ≤ 1 / 2 :=
        abs_le.mpr ⟨by linarith [hb.2], by linarith [hb.1]⟩
      have hone : (1 : ℚ) ≤ |(De.rustRound q : ℚ) - (n : ℚ)| := by
        have hz : De.rustRound q - n ≠ 0 := sub_ne_zero.mpr (fun h => hn h.symm)
        have h1 : (1 : ℤ) ≤ |De.rustRound q - n| := Int.one_le_abs hz
        exact_mod_cast h1
      have htri : |(De.rustRound q : ℚ) - (n : ℚ)| ≤
          |(De.rustRound q : ℚ) - q| + |q - (n : ℚ)| := abs_sub_le _ _ _
      have hcomm : |(De.rustRound q : ℚ) - q| = |q - (De.rustRound q : ℚ)| := abs_sub_comm _ _
      linarith
  · intro n hn
    unfold De.rustRound
    rw [if_pos (by positivity)]
    have h : (n : ℚ) + 1 / 2 + 1 / 2 = ((n + 1 : ℤ) : ℚ) := by push_cast; ring
    rw [h, Int.floor_intCast]
  · intro n hn
    unfold De.rustRound
    rw [if_neg (by
      intro hc
      have hq : (0 : ℚ) ≤ (n : ℚ) := by exact_mod_cast hn
      linarith)]
    have h : -((n : ℚ) + 1 / 2) - 1 / 2 = ((-(n + 1) : ℤ) : ℚ) := by push_cast; ring
    rw [h, Int.ceil_intCast]
  · intro s q rem h h1 h2
    rw [deserialize_i32_eq s rem q h, castI64_round]
    have hx : (if De.rustRound q < De.i64Min then De.i64Min
        else if De.i64Max < De.rustRound q then De.i64Max else De.rustRound q) =
        De.rustRound q := by
      unfold De.i64Min De.i64Max
      split_ifs <;> omega
    rw [hx, tryFromRange_pos ⟨h1, h2⟩]

set_option maxHeartbeats 1600000 in
attribute [local semireducible] Rat.add Rat.mul Rat.inv Rat.sub in
/-- Claim C3 witness: the general in-range clause applied at the input
`2.5`, whose rounded value is 3. -/
theorem c3_round_ties_away_witness :
    De.deserialize_i32 ⟨"2.5".data, 0⟩ = (⟨[], 0⟩, .ok 3) := by
  have h := c3_round_ties_away.2.2.2.2.2 ⟨"2.5".data, 0⟩ (5 / 2) []
    (by decide) (by decide) (by decide)
  have hr : De.rustRound (5 / 2 : ℚ) = 3 := by decide
  rw [hr] at h
  exact h

/-! Depth bookkeeping of the container operations, for any depth-preserving
visitor: the depth after the call is one greater than before exactly when the
depth-bracketed inner visitor call was reached and returned an error (the `?`
early return skips the decrement), and is restored in every other case —
success, the operation's own delimiter-check failures, and the enum's
string-variant branch. -/

theorem seq_depth {α : Type} (visit : De.M α) (s : De.DeState)
    (h : ∀ t, ((visit t).1).depth = t.depth) :
    (¬ De.seqVisitErred visit s ∧ ((De.deserialize_seq visit s).1).depth = s.depth) ∨
    (De.seqVisitErred visit s ∧ ((De.deserialize_seq visit s).1).depth = s.depth + 1 ∧
      De.isOkE (De.deserialize_seq visit s).2 = false) := by
  unfold De.deserialize_seq
  split
  · rename_i s1 e1 hts
    left
    refine ⟨?_, ?_⟩
    · rintro ⟨s1', s3', e', ht', hv'⟩
      rw [hts] at ht'
      simp at ht'
    · have hx := take_depth s
      rw [hts] at hx
      exact hx
  · rename_i s1 c1 hts
    have hd1 : s1.depth = s.depth := by
      have hx := take_depth s
      rw [hts] at hx
      exact hx
    split_ifs with hc
    · subst hc
      split
      · rename_i s3 e3 hv
        have hd3 : s3.depth = s1.depth + 1 := by
          have hx := h ⟨s1.input, s1.depth + 1⟩
          rw [hv] at hx
          simpa using hx
        right
        refine ⟨⟨s1, s3, e3, hts, hv⟩, ?_, rfl⟩
        show s3.depth = s.depth + 1
        omega
      · rename_i s3 v3 hv
        have hd3 : s3.depth = s1.depth + 1 := by
          have hx := h ⟨s1.input, s1.depth + 1⟩
          rw [hv] at hx
          simpa using hx
        have hnerr : ¬ De.seqVisitErred visit s := by
          rintro ⟨s1', s3', e', ht', hv'⟩
          rw [hts] at ht'
          have hs1 : s1' = s1 := by
            have := congrArg Prod.fst ht'
            simpa using this.symm
          subst hs1
          rw [hv] at hv'
          simp at hv'
        split
        · rename_i s5 e5 htk
          have hd5 : s5.depth = s3.depth - 1 := by
            have hx := take_depth ⟨s3.input, s3.depth - 1⟩
            rw [htk] at hx
            simpa using hx
          left
          refine ⟨hnerr, ?_⟩
          show s5.depth = s.depth
          omega
        · rename_i s5 c5 htk
          have hd5 : s5.depth = s3.depth - 1 := by
            have hx := take_depth ⟨s3.input, s3.depth - 1⟩
            rw [htk] at hx
            simpa using hx
          split_ifs with hc2
          · left
            refine ⟨hnerr, ?_⟩
            show ((De.parse_ws s5).1).depth = s.depth
            have hpw : ((De.parse_ws s5).1).depth = s5.depth := by
              unfold De.parse_ws De.liftP
              rcases Tot.all_ignored s5.input with _ | ⟨rem, v⟩ <;> rfl
            rw [hpw]
            omega
          · left
            refine ⟨hnerr, ?_⟩
            show s5.depth = s.depth
            omega
    · left
      refine ⟨?_, hd1⟩
      rintro ⟨s1', s3', e', ht', hv'⟩
      rw [hts] at ht'
      have : c1 = '[' := by
        have := congrArg (fun p => p.2) ht'
        simpa using this
      exact hc this

theorem map_depth {α : Type} (visit : De.M α) (s : De.DeState)
    (h : ∀ t, ((visit t).1).depth = t.depth) :
    (¬ De.mapVisitErred visit s ∧ ((De.deserialize_map visit s).1).depth = s.depth) ∨
    (De.mapVisitErred visit s ∧ ((De.deserialize_map visit s).1).depth = s.depth + 1 ∧
      De.isOkE (De.deserialize_map visit s).2 = false) := by
  unfold De.deserialize_map
  split_ifs with hroot
  · split
    · rename_i s2 e2 hv
      have hd2 : s2.depth = s.depth + 1 := by
        have hx := h ⟨s.input, s.depth + 1⟩
        rw [hv] at hx
        simpa using hx
      right
      exact ⟨Or.inl ⟨hroot, s2, e2, hv⟩, hd2, rfl⟩
    · rename_i s2 v2 hv
      have hd2 : s2.depth = s.depth + 1 := by
        have hx := h ⟨s.input, s.depth + 1⟩
        rw [hv] at hx
        simpa using hx
      left
      refine ⟨?_, ?_⟩
      · rintro (⟨_, s2', e', hv'⟩ | ⟨hnroot, _⟩)
        · rw [hv] at hv'
          simp at hv'
        · exact hnroot hroot
      · show s2.depth - 1 = s.depth
        omega
  · split
    · rename_i s1 e1 hts
      left
      refine ⟨?_, ?_⟩
      · rintro (⟨hroot', _⟩ | ⟨_, s1', s3', e', ht', hv'⟩)
        · exact hroot hroot'
        · rw [hts] at ht'
          simp at ht'
      · have hx := take_depth s
        rw [hts] at hx
        exact hx
    · rename_i s1 c1 hts
      have hd1 : s1.depth = s.depth := by
        have hx := take_depth s
        rw [hts] at hx
        exact hx
      split_ifs with hc
      · subst hc
        split
        · rename_i s3 e3 hv
          have hd3 : s3.depth = s1.depth + 1 := by
            have hx := h ⟨s1.input, s1.depth + 1⟩
            rw [hv] at hx
            simpa using hx
          right
          refine ⟨Or.inr ⟨hroot, s1, s3, e3, hts, hv⟩, ?_, rfl⟩
          show s3.depth = s.depth + 1
          omega
        · rename_i s3 v3 hv
          have hd3 : s3.depth = s1.depth + 1 := by
            have hx := h ⟨s1.input, s1.depth + 1⟩
            rw [hv] at hx
            simpa using hx
          have hnerr : ¬ De.mapVisitErred visit s := by
            rintro (⟨hroot', _⟩ | ⟨_, s1', s3', e', ht', hv'⟩)
            · exact hroot hroot'
            · rw [hts] at ht'
              have hs1 : s1' = s1 := by
                have := congrArg Prod.fst ht'
                simpa using this.symm
              subst hs1
              rw [hv] at hv'
              simp at hv'
          split
          · rename_i s5 e5 htk
            have hd5 : s5.depth = s3.depth - 1 := by
              have hx := take_depth ⟨s3.input, s3.depth - 1⟩
              rw [htk] at hx
              simpa using hx
            left
            refine ⟨hnerr, ?_⟩
            show s5.depth = s.depth
            omega
          · rename_i s5 c5 htk
            have hd5 : s5.depth = s3.depth - 1 := by
              have hx := take_depth ⟨s3.input, s3.depth - 1⟩
              rw [htk] at hx
              simpa using hx
            split_ifs with hc2
            · left
              refine ⟨hnerr, ?_⟩
              show ((De.parse_ws s5).1).depth = s.depth
              rw [parse_ws_depth s5]
              omega
            · left
              refine ⟨hnerr, ?_⟩
              show s5.depth = s.depth
              omega
      · left
        refine ⟨?_, hd1⟩
        rintro (⟨hroot', _⟩ | ⟨_, s1', s3', e', ht', hv'⟩)
        · exact hroot hroot'
        · rw [hts] at ht'
          have : c1 = '{' := by
            have := congrArg (fun p => p.2) ht'
            simpa using this
          exact hc this

theorem enum_depth {α : Type} (visitString : List Char → Except De.DeError α)
    (visit : De.M α) (s : De.DeState)
    (h : ∀ t, ((visit t).1).depth = t.depth) :
    (¬ De.enumVisitErred visit s ∧
      ((De.deserialize_enum visitString visit s).1).depth = s.depth) ∨
    (De.enumVisitErred visit s ∧
      ((De.deserialize_enum visitString visit s).1).depth = s.depth + 1 ∧
      De.isOkE (De.deserialize_enum visitString visit s).2 = false) := by
  unfold De.deserialize_enum
  split
  · rename_i s0 e0 hpk
    left
    refine ⟨?_, ?_⟩
    · rintro ⟨s0', c0', hpk', _, _⟩
      rw [hpk] at hpk'
      simp at hpk'
    · have hx := peek_depth s
      rw [hpk] at hx
      exact hx
  · rename_i s0 c0 hpk
    have hd0 : s0.depth = s.depth := by
      have hx := peek_depth s
      rw [hpk] at hx
      exact hx
    have halign : ∀ s0' c0', De.peek s = (s0', Except.ok c0') → s0' = s0 ∧ c0' = c0 := by
      intro s0' c0' hpk'
      rw [hpk] at hpk'
      constructor
      · have := congrArg Prod.fst hpk'
        simpa using this.symm
      · have := congrArg (fun p => p.2) hpk'
        simpa using this.symm
    split_ifs with hq hroot
    · split
      · rename_i s1 str hps
        have hd1 : s1.depth = s0.depth := by
          have hx := parse_string_depth s0
          rw [hps] at hx
          exact hx
        left
        refine ⟨?_, ?_⟩
        · rintro ⟨s0', c0', hpk', hq', _⟩
          obtain ⟨-, hc0⟩ := halign s0' c0' hpk'
          exact hq' (hc0.trans hq)
        · show s1.depth = s.depth
          omega
      · rename_i s1 e1 hps
        have hd1 : s1.depth = s0.depth := by
          have hx := parse_string_depth s0
          rw [hps] at hx
          exact hx
        left
        refine ⟨?_, ?_⟩
        · rintro ⟨s0', c0', hpk', hq', _⟩
          obtain ⟨-, hc0⟩ := halign s0' c0' hpk'
          exact hq' (hc0.trans hq)
        · show s1.depth = s.depth
          omega
    · split
      · rename_i s2 e2 hv
        have hd2 : s2.depth = s0.depth + 1 := by
          have hx := h ⟨s0.input, s0.depth + 1⟩
          rw [hv] at hx
          simpa using hx
        right
        refine ⟨⟨s0, c0, hpk, hq, Or.inl ⟨hroot, s2, e2, hv⟩⟩, ?_, rfl⟩
        show s2.depth = s.depth + 1
        omega
      · rename_i s2 v2 hv
        have hd2 : s2.depth = s0.depth + 1 := by
          have hx := h ⟨s0.input, s0.depth + 1⟩
          rw [hv] at hx
          simpa using hx
        left
        refine ⟨?_, ?_⟩
        · rintro ⟨s0', c0', hpk', hq', herr'⟩
          obtain ⟨hs0, -⟩ := halign s0' c0' hpk'
          subst hs0
          rcases herr' with ⟨-, s2', e', hv'⟩ | ⟨hnroot, -⟩
          · rw [hv] at hv'
            simp at hv'
          · exact hnroot hroot
        · show s2.depth - 1 = s.depth
          omega
    · split
      · rename_i s1 e1 hts
        left
        refine ⟨?_, ?_⟩
        · rintro ⟨s0', c0', hpk', hq', herr'⟩
          obtain ⟨hs0, -⟩ := halign s0' c0' hpk'
          subst hs0
          rcases herr' with ⟨hroot', -⟩ | ⟨-, s1', s3', e', ht', hv'⟩
          · exact hroot hroot'
          · rw [hts] at ht'
            simp at ht'
        · have hx := take_depth s0
          rw [hts] at hx
          rw [hx]
          exact hd0
      · rename_i s1 c1 hts
        have hd1 : s1.depth = s.depth := by
          have hx := take_depth s0
          rw [hts] at hx
          have hx2 : s1.depth = s0.depth := by simpa using hx
          omega
        split_ifs with hc
        · subst hc
          split
          · rename_i s3 e3 hv
            have hd3 : s3.depth = s1.depth + 1 := by
              have hx := h ⟨s1.input, s1.depth + 1⟩
              rw [hv] at hx
              simpa using hx
            right
            refine ⟨⟨s0, c0, hpk, hq, Or.inr ⟨hroot, s1, s3, e3, hts, hv⟩⟩, ?_, rfl⟩
            show s3.depth = s.depth + 1
            omega
          · rename_i s3 v3 hv
            have hd3 : s3.depth = s1.depth + 1 := by
              have hx := h ⟨s1.input, s1.depth + 1⟩
              rw [hv] at hx
              simpa using hx
            have hnerr : ¬ De.enumVisitErred visit s := by
              rintro ⟨s0', c0', hpk', hq', herr'⟩
              obtain ⟨hs0, -⟩ := halign s0' c0' hpk'
              subst hs0
              rcases herr' with ⟨hroot', -⟩ | ⟨-, s1', s3', e', ht', hv'⟩
              · exact hroot hroot'
              · rw [hts] at ht'
                have hs1 : s1' = s1 := by
                  have := congrArg Prod.fst ht'
                  simpa using this.symm
                subst hs1
                rw [hv] at hv'
                simp at hv'
            split
            · rename_i s5 e5 htk
              have hd5 : s5.depth = s3.depth - 1 := by
                have hx := take_depth ⟨s3.input, s3.depth - 1⟩
                rw [htk] at hx
                simpa using hx
              left
              refine ⟨hnerr, ?_⟩
              show s5.depth = s.depth
              omega
            · rename_i s5 c5 htk
              have hd5 : s5.depth = s3.depth - 1 := by
                have hx := take_depth ⟨s3.input, s3.depth - 1⟩
                rw [htk] at hx
                simpa using hx
              split_ifs with hc2
              · left
                refine ⟨hnerr, ?_⟩
                show s5.depth = s.depth
                omega
              · left
                refine ⟨hnerr, ?_⟩
                show s5.depth = s.depth
                omega
        · left
          refine ⟨?_, hd1⟩
          rintro ⟨s0', c0', hpk', hq', herr'⟩
          obtain ⟨hs0, -⟩ := halign s0' c0' hpk'
          subst hs0
          rcases herr' with ⟨hroot', -⟩ | ⟨-, s1', s3', e', ht', hv'⟩
          · exact hroot hroot'
          · rw [hts] at ht'
            have : c1 = '{' := by
              have := congrArg (fun p => p.2) ht'
              simpa using this
            exact hc this

/-- Claim C4 amended: for any depth-preserving visitor, each container
operation (`deserialize_seq`, `deserialize_map`, `deserialize_enum`) restores
the depth when it returns successfully, and also whenever its failure does not
come from the depth-bracketed inner visitor call (its own delimiter checks,
and the enum's string-variant branch); but whenever the inner visitor call is
reached and returns an error, the `?` early return skips the decrement, the
operation fails, and the depth is left one greater than before the call. -/
theorem c4_depth_amended {α : Type} (visit : De.M α)
    (visitString : List Char → Except De.DeError α) (s : De.DeState)
    (h : ∀ t, ((visit t).1).depth = t.depth) :
    (De.isOkE (De.deserialize_seq visit s).2 = true →
      ((De.deserialize_seq visit s).1).depth = s.depth) ∧
    (De.seqVisitErred visit s →
      ((De.deserialize_seq visit s).1).depth = s.depth + 1 ∧
        De.isOkE (De.deserialize_seq visit s).2 = false) ∧
    (¬ De.seqVisitErred visit s →
      ((De.deserialize_seq visit s).1).depth = s.depth) ∧
    (De.isOkE (De.deserialize_map visit s).2 = true →
      ((De.deserialize_map visit s).1).depth = s.depth) ∧
    (De.mapVisitErred visit s →
      ((De.deserialize_map visit s).1).depth = s.depth + 1 ∧
        De.isOkE (De.deserialize_map visit s).2 = false) ∧
    (¬ De.mapVisitErred visit s →
      ((De.deserialize_map visit s).1).depth = s.depth) ∧
    (De.isOkE (De.deserialize_enum visitString visit s).2 = true →
      ((De.deserialize_enum visitString visit s).1).depth = s.depth) ∧
    (De.enumVisitErred visit s →
      ((De.deserialize_enum visitString visit s).1).depth = s.depth + 1 ∧
        De.isOkE (De.deserialize_enum visitString visit s).2 = false) ∧
    (¬ De.enumVisitErred visit s →
      ((De.deserialize_enum visitString visit s).1).depth = s.depth) := by
  have hs := seq_depth visit s h
  have hm := map_depth visit s h
  have he := enum_depth visitString visit s h
  refine ⟨?_, ?_, ?_, ?_, ?_, ?_, ?_, ?_, ?_⟩
  · intro hok
    rcases hs with ⟨-, hd⟩ | ⟨-, -, hbad⟩
    · exact hd
    · rw [hok] at hbad
      exact absurd hbad (by decide)
  · intro herr
    rcases hs with ⟨hne, -⟩ | ⟨-, hd, hf⟩
    · exact absurd herr hne
    · exact ⟨hd, hf⟩
  · intro hne
    rcases hs with ⟨-, hd⟩ | ⟨herr, -, -⟩
    · exact hd
    · exact absurd herr hne
  · intro hok
    rcases hm with ⟨-, hd⟩ | ⟨-, -, hbad⟩
    · exact hd
    · rw [hok] at hbad
      exact absurd hbad (by decide)
  · intro herr
    rcases hm with ⟨hne, -⟩ | ⟨-, hd, hf⟩
    · exact absurd herr hne
    · exact ⟨hd, hf⟩
  · intro hne
    rcases hm with ⟨-, hd⟩ | ⟨herr, -, -⟩
    · exact hd
    · exact absurd herr hne
  · intro hok
    rcases he with ⟨-, hd⟩ | ⟨-, -, hbad⟩
    · exact hd
    · rw [hok] at hbad
      exact absurd hbad (by decide)
  · intro herr
    rcases he with ⟨hne, -⟩ | ⟨-, hd, hf⟩
    · exact absurd herr hne
    · exact ⟨hd, hf⟩
  · intro hne
    rcases he with ⟨-, hd⟩ | ⟨herr, -, -⟩
    · exact hd
    · exact absurd herr hne

/-- Claim C4 amended witness: the sequence operation applied with a trivial
depth-preserving visitor to the document `[]` succeeds and restores depth 0. -/
theorem c4_depth_amended_witness :
    ((De.deserialize_seq (fun t => (t, Except.ok (0 : ℕ))) ⟨"[]".data, 0⟩).1).depth = 0 := by
  have h := (c4_depth_amended (fun t => (t, Except.ok (0 : ℕ))) (fun _ => Except.ok 0)
    ⟨"[]".data, 0⟩ (fun _ => rfl)).1
  exact h (by decide)

/-- S1-with-trailing key read 1: `boolean`. -/
theorem dataKey1T : De.next_key_seed_data
    ⟨"boolean true\ninteger 22.0\nstring \"hello world\"\n  // trailing".data, 1⟩ =
    (⟨"true\ninteger 22.0\nstring \"hello world\"\n  // trailing".data, 1⟩,
      .ok (some .boolean)) := by decide

/-- S1-with-trailing value read 1: `true`. -/
theorem dataVal1T : De.next_value_seed De.deserialize_bool
    ⟨"true\ninteger 22.0\nstring \"hello world\"\n  // trailing".data, 1⟩ =
    (⟨"integer 22.0\nstring \"hello world\"\n  // trailing".data, 1⟩, .ok true) := by decide

/-- S1-with-trailing key read 2: `integer`. -/
theorem dataKey2T : De.next_key_seed_data
    ⟨"integer 22.0\nstring \"hello world\"\n  // trailing".data, 1⟩ =
    (⟨"22.0\nstring \"hello world\"\n  // trailing".data, 1⟩, .ok (some .integer)) := by decide

attribute [local semireducible] Rat.add Rat.mul Rat.inv Rat.sub in
/-- S1-with-trailing value read 2: `22.0` rounds to the i32 value 22. -/
theorem dataVal2T : De.next_value_seed De.deserialize_i32
    ⟨"22.0\nstring \"hello world\"\n  // trailing".data, 1⟩ =
    (⟨"string \"hello world\"\n  // trailing".data, 1⟩, .ok 22) := by decide

/-- S1-with-trailing key read 3: `string`. -/
theorem dataKey3T : De.next_key_seed_data
    ⟨"string \"hello world\"\n  // trailing".data, 1⟩ =
    (⟨"\"hello world\"\n  // trailing".data, 1⟩, .ok (some .str)) := by decide

/-- S1-with-trailing value read 3: `"hello world"`; the value deserializer's
trailing `parse_ws` consumes the whitespace and line comment after it. -/
theorem dataVal3T : De.next_value_seed De.deserialize_string
    ⟨"\"hello world\"\n  // trailing".data, 1⟩ =
    (⟨([] : List Char), 1⟩, .ok "hello world".data) := by decide

/-- The derived `Data` map-visitor loop over the S1 document followed by
ignored trailing input (whitespace and a line comment), which the root-map
key loop consumes. -/
theorem visitMapData_s1_trailing :
    (fun t => De.visitMapDataF (t.input.length + 1) none none none t)
    (⟨"boolean true\ninteger 22.0\nstring \"hello world\"\n  // trailing".data, 1⟩ :
      De.DeState) =
    (⟨[], 1⟩, .ok ⟨true, 22, "hello world".data⟩) := by
  show De.visitMapDataF
      ("boolean true\ninteger 22.0\nstring \"hello world\"\n  // trailing".data.length + 1)
      none none none
      ⟨"boolean true\ninteger 22.0\nstring \"hello world\"\n  // trailing".data, 1⟩ = _
  rw [show ("boolean true\ninteger 22.0\nstring \"hello world\"\n  // trailing".data.length + 1 :
      ℕ) = 60 + 1 from by decide]
  rw [visitMapDataF_succ, visitMapDataBody_bool _ _ _ _ _ _ _ dataKey1T dataVal1T]
  rw [show (60 : ℕ) = 59 + 1 from rfl]
  rw [visitMapDataF_succ, visitMapDataBody_int _ _ _ _ _ _ _ dataKey2T dataVal2T]
  rw [show (59 : ℕ) = 58 + 1 from rfl]
  rw [visitMapDataF_succ, visitMapDataBody_str _ _ _ _ _ _ _ dataKey3T dataVal3T]
  rw [show (58 : ℕ) = 57 + 1 from rfl]
  rw [visitMapDataF_succ, visitMapDataBody_end _ _ _ _ _ _ dataKeyEnd]

/-- Claim C9 amended: `from_str` succeeds exactly when deserialization
succeeds with no input left over, whatever that input is; trailing ignored
input is accepted only when the decoded shape's own deserializer consumes
it — the implicit-root map loop does (reporting end of keys once the input
is exhausted after consuming trailing ignored input), while a bare scalar
leaves even a single trailing space unconsumed and `from_str` then fails. -/
theorem c9_trailing_policy_amended :
    (∀ (α : Type) (m : De.M α) (i : List Char) (s : De.DeState) (v : α),
      m ⟨i, 0⟩ = (s, .ok v) → s.input ≠ [] →
      De.from_str_run m i = .error (.SerdeError "Input not empty")) ∧
    (∀ (α : Type) (m : De.M α) (i : List Char) (s : De.DeState) (v : α),
      m ⟨i, 0⟩ = (s, .ok v) → s.input = [] →
      De.from_str_run m i = .ok v) ∧
    De.from_str_bool "true".data = .ok true ∧
    De.from_str_data
      "boolean true\ninteger 22.0\nstring \"hello world\"\n  // trailing".data =
      .ok ⟨true, 22, "hello world".data⟩ ∧
    (∀ s : De.DeState, s.depth = 1 → Tot.all_ignored s.input = some ([], ()) →
      De.next_key_seed_data s = (⟨[], 1⟩, .ok none)) := by
  refine ⟨?_, ?_, by rfl, ?_, ?_⟩
  · intro α m i s v hm hne
    unfold De.from_str_run
    rw [hm]
    show (if s.input.isEmpty = true then Except.ok v
      else Except.error (De.DeError.SerdeError "Input not empty")) = _
    cases hsi : s.input with
    | nil => exact absurd hsi hne
    | cons c cs => rfl
  · intro α m i s v hm hempty
    unfold De.from_str_run
    rw [hm]
    show (if s.input.isEmpty = true then Except.ok v
      else Except.error (De.DeError.SerdeError "Input not empty")) = _
    rw [hempty]
    rfl
  · have h := deserialize_map_root
      (fun t => De.visitMapDataF (t.input.length + 1) none none none t)
      ("boolean true\ninteger 22.0\nstring \"hello world\"\n  // trailing".data)
      ⟨[], 1⟩ ⟨true, 22, "hello world".data⟩ visitMapData_s1_trailing
    have hds : De.deserialize_data
        ⟨"boolean true\ninteger 22.0\nstring \"hello world\"\n  // trailing".data, 0⟩ =
        (⟨[], 0⟩, .ok ⟨true, 22, "hello world".data⟩) := h
    show De.from_str_run De.deserialize_data _ = _
    unfold De.from_str_run
    rw [hds]
    rfl
  · intro s hd hai
    obtain ⟨inp, d⟩ := s
    simp only at hd hai
    subst hd
    have hpw : De.parse_ws ⟨inp, 1⟩ = (⟨[], 1⟩, .ok ()) := by
      unfold De.parse_ws De.liftP
      rw [hai]
    unfold De.next_key_seed_data
    rw [hpw]
    rfl

/-- Claim C9 amended witness: at the implicit root (depth 1), an input that
is entirely ignored (a single space) produces end-of-keys with the input
exhausted. -/
theorem c9_trailing_policy_amended_witness :
    De.next_key_seed_data ⟨" ".data, 1⟩ = (⟨[], 1⟩, .ok none) := by
  have h := c9_trailing_policy_amended.2.2.2.2 ⟨" ".data, 1⟩ rfl (by rfl)
  exact h
